import Mathlib

/-!
Verification model of the bookkeeping repository: the CSV ingestion and
deduplication pipeline of csv_to_postgres.py, the persistence boundary of
database/database.py and database/models.py, and the duplicate-review
workflow of mcp/tools/management_tools.py.

Conventions of the shallow embedding:
* pandas dataframes become Lean lists of row records, in row order;
  pandas drop_duplicates with keep first becomes a keep-first key dedup.
* Python strings become Lean String; monetary floats become Rat (the data
  is 2-decimal currency, where float arithmetic used by the code is exact).
* hashlib.sha256 hexdigest truncations and hashlib.md5 hexdigest are
  library primitives external to the repository; the code uses them only
  as effectively injective fingerprints of their input strings, so they
  are modelled by injective string tagging functions.  Every claim proved
  here uses only equality and inequality of hash values.
* Database effects become explicit state passing; a fallible statement
  returns an error marker and the state it leaves behind.
-/

namespace Bookkeeping

/-! ### Modelling json.dumps string serialization (csv_to_postgres.py line 182).
json.dumps escapes a backslash or double quote inside a string with a
leading backslash; other payload characters pass through unchanged. -/

/-- One character of the JSON string body, as json.dumps renders it. -/
def escChar (c : Char) : List Char :=
  if c = '"' ∨ c = '\\' then ['\\', c] else [c]

/-- JSON string body of a Python string, as json.dumps renders it. -/
def escStr (s : String) : List Char :=
  s.data.flatMap escChar

/-- Inverse reading of an escaped JSON string body, used to show that
json.dumps string serialization is injective. -/
def unescStr : List Char → List Char
  | [] => []
  | [c] => [c]
  | c :: d :: rest => if c = '\\' then d :: unescStr rest else c :: unescStr (d :: rest)

/-- A JSON string literal: quote, escaped body, quote. -/
def jsonStr (s : String) : List Char :=
  '"' :: (escStr s ++ ['"'])

theorem unescStr_flatMap (l : List Char) : unescStr (l.flatMap escChar) = l := by
  induction l with
  | nil => rfl
  | cons c rest ih =>
    rw [List.flatMap_cons]
    by_cases h : c = '"' ∨ c = '\\'
    · rw [escChar, if_pos h]
      cases h2 : rest.flatMap escChar with
      | nil => rw [h2] at ih; simp [unescStr, ← ih]
      | cons d ds => rw [h2] at ih; simp [unescStr, ih]
    · rw [escChar, if_neg h]
      push_neg at h
      cases h2 : rest.flatMap escChar with
      | nil =>
        rw [h2] at ih
        simp [unescStr, ← ih]
      | cons d ds =>
        rw [h2] at ih
        simp only [List.singleton_append, unescStr, if_neg h.2, ih]

theorem unescStr_escStr (s : String) : unescStr (escStr s) = s.data :=
  unescStr_flatMap s.data

theorem escStr_injective : Function.Injective escStr := by
  intro a b h
  have h2 : unescStr (escStr a) = unescStr (escStr b) := by rw [h]
  rw [unescStr_escStr, unescStr_escStr] at h2
  cases a; cases b; exact congrArg String.mk h2

theorem jsonStr_injective : Function.Injective jsonStr := by
  intro a b h
  unfold jsonStr at h
  have h2 : escStr a ++ ['"'] = escStr b ++ ['"'] := by
    simpa using h
  exact escStr_injective (List.append_cancel_right h2)

/-! ### Numeric renderings.
The pipeline stores amounts as 2-decimal currency values; Python renders
them through repr (inside json.dumps and f-strings) and through the .2f
format.  Both renderings are modelled on Rat. -/

/-- Digits of a natural number, as decimal text. -/
def natDec (n : ℕ) : String := toString n

/-- The integer number of cents of an amount: round(q * 100), written
with integer floor division so that it evaluates inside the kernel. -/
def cents (q : ℚ) : ℤ := Int.fdiv (200 * q.num + q.den) (2 * q.den)

/-- Absolute value of a rational, as the Python abs builtin. -/
def ratAbs (q : ℚ) : ℚ := if q < 0 then -q else q

/-- Subtraction of rationals, written through mkRat so that it evaluates
inside the kernel; ratSub_eq_sub shows it is ordinary subtraction. -/
def ratSub (a b : ℚ) : ℚ :=
  mkRat (a.num * b.den - b.num * a.den) (a.den * b.den)

theorem ratSub_eq_sub (a b : ℚ) : ratSub a b = a - b :=
  (Rat.sub_def' a b).symm

/-- Models the Python repr of a float that holds a (at most) 2-decimal
currency amount: minimal digits, at least one decimal place
(repr of -4.5 is "-4.5", of 100.0 is "100.0", of 4.05 is "4.05"). -/
def amtRepr (q : ℚ) : String :=
  let n : ℤ := cents q
  let sign := if n < 0 then "-" else ""
  let m := n.natAbs
  let ip := m / 100
  let r := m % 100
  if r = 0 then sign ++ natDec ip ++ ".0"
  else if r % 10 = 0 then sign ++ natDec ip ++ "." ++ natDec (r / 10)
  else sign ++ natDec ip ++ "." ++ (if r < 10 then "0" else "") ++ natDec r

/-- Models the Python format spec .2f on a 2-decimal currency amount:
always exactly two decimal places. -/
def fmt2 (q : ℚ) : String :=
  let n : ℤ := cents q
  let sign := if n < 0 then "-" else ""
  let m := n.natAbs
  let r := m % 100
  sign ++ natDec (m / 100) ++ "." ++ (if r < 10 then "0" else "") ++ natDec r

/-! ### The normalized row (output of normalize_csv, csv_to_postgres.py
lines 248 to 314).  Rows reaching the fingerprint and dedup stages have a
parsed date (rendered as an ISO string by parse_date_col) and a numeric
amount; the optional text columns default to the empty string and the
optional balance to absence. -/

structure NRow where
  date : String
  description : String
  amount : ℚ
  source : String := ""
  txnId : String := ""
  reference : String := ""
  time : String := ""
  account : String := ""
  balance : Option ℚ := none
deriving DecidableEq, Repr

/-- The bal entry of the content-hash payload: an absent balance is
serialized as the empty string, a present one as a JSON number
(csv_to_postgres.py lines 166 to 170 and 180). -/
def balChars : Option ℚ → List Char
  | none => jsonStr ""
  | some b => (amtRepr b).data

/-- The canonical serialization hashed by row_content_hash
(csv_to_postgres.py lines 172 to 182): a JSON object with keys
date, desc, amount, txn, ref, time, acct, bal, in insertion order,
with separators ("," ":").  The source column is not serialized. -/
def payloadChars (r : NRow) : List Char :=
  "\x7b\"date\":".data ++ jsonStr r.date ++
  ",\"desc\":".data ++ jsonStr r.description ++
  ",\"amount\":".data ++ (amtRepr r.amount).data ++
  ",\"txn\":".data ++ jsonStr r.txnId ++
  ",\"ref\":".data ++ jsonStr r.reference ++
  ",\"time\":".data ++ jsonStr r.time ++
  ",\"acct\":".data ++ jsonStr r.account ++
  ",\"bal\":".data ++ balChars r.balance ++ ['\x7d']

/-- row_content_hash (csv_to_postgres.py lines 156 to 183): the sha256
hexdigest truncated to 16 hex characters of the payload.  The digest
primitive is modelled by an injective tagging of the payload; the code
relies only on digest equality mirroring payload equality. -/
def row_content_hash (r : NRow) : String :=
  String.mk ('h' :: payloadChars r)

/-- possible_dup_group (csv_to_postgres.py lines 185 to 196): the sha256
hexdigest truncated to 10 hex characters of
date, stripped description and 2-decimal amount joined by pipes.
The digest primitive is modelled by an injective tagging of the key. -/
def possible_dup_group (r : NRow) : String :=
  String.mk ('g' :: (r.date ++ "|" ++ r.description.trim ++ "|" ++ fmt2 r.amount).data)

/-- stable_rowhash (csv_to_postgres.py lines 198 to 201): the md5
hexdigest of date, description and amount joined by pipes.  The digest
primitive is modelled by an injective tagging of the key. -/
def stable_rowhash (date description : String) (amount : ℚ) : String :=
  String.mk ('m' :: (date ++ "|" ++ description ++ "|" ++ amtRepr amount).data)

/-! ### Amount cleaning (csv_to_postgres.py lines 76 to 79).
clean_amount deletes every comma, dollar sign and whitespace character,
replaces each parenthesis (opening or closing) by a minus sign, and runs
pandas to_numeric with coercion: an unparseable result becomes missing. -/

/-- Characters matched by the regex class for whitespace. -/
def isWsChar (c : Char) : Bool :=
  c = ' ' ∨ c = '\t' ∨ c = '\n' ∨ c = '\r' ∨ c = '\x0b' ∨ c = '\x0c'

/-- First replacement of clean_amount: delete comma, dollar, whitespace. -/
def stripAmountChars (s : String) : String :=
  String.mk (s.data.filter (fun c => ¬ (c = ',' ∨ c = '$' ∨ isWsChar c = true)))

/-- Second replacement of clean_amount: each parenthesis becomes a minus. -/
def parensToMinus (s : String) : String :=
  String.mk (s.data.map (fun c => if c = '(' ∨ c = ')' then '-' else c))

/-- Numeric value of a list of decimal digit characters. -/
def natOfDigits (l : List Char) : ℕ :=
  l.foldl (fun acc c => 10 * acc + (c.toNat - 48)) 0

/-- Unsigned decimal literal: digits, optionally a dot and more digits,
with at least one digit overall and nothing trailing. -/
def parseUnsigned (l : List Char) : Option ℚ :=
  let ip := l.takeWhile (·.isDigit)
  let rest := l.dropWhile (·.isDigit)
  match rest with
  | [] => if ip.isEmpty then none else some (mkRat (natOfDigits ip) 1)
  | '.' :: fr =>
      if fr.all (·.isDigit) ∧ ¬ (ip.isEmpty ∧ fr.isEmpty) then
        some (mkRat (natOfDigits ip * 10 ^ fr.length + natOfDigits fr)
          (10 ^ fr.length))
      else none
  | _ => none

/-- Models pandas to_numeric with coercion on one cell, for plain decimal
literals (the shapes clean_amount can produce): an optional sign followed
by an unsigned decimal literal; anything else coerces to missing. -/
def toNumeric (s : String) : Option ℚ :=
  match s.data with
  | [] => none
  | '-' :: t => (parseUnsigned t).map (fun q => -q)
  | '+' :: t => parseUnsigned t
  | l => parseUnsigned l

/-- clean_amount on one cell (csv_to_postgres.py lines 76 to 79). -/
def clean_amount (s : String) : Option ℚ :=
  toNumeric (parensToMinus (stripAmountChars s))

/-! ### The deduplication tiers (csv_to_postgres.py lines 316 to 363).
The dataframe is a list of normalized rows in ingestion order.  Each of
rules 1 and 2 splits the frame into the rows carrying the required
fields and the rest, deduplicates the first part keeping the first
occurrence, and concatenates the deduplicated part before the untouched
part (pd.concat in that order), thereby reordering the frame.  Rule 3
deduplicates the whole frame on the content hash without a split. -/

/-- Keep-first deduplication on a key, the semantics of pandas
drop_duplicates with keep first.  The accumulator holds the keys already
seen. -/
def dropDupFirstAux [DecidableEq α] (key : NRow → α) (seen : List α) : List NRow → List NRow
  | [] => []
  | x :: xs =>
      if key x ∈ seen then dropDupFirstAux key seen xs
      else x :: dropDupFirstAux key (key x :: seen) xs

/-- drop_duplicates on a key column set, keep first. -/
def dropDupFirst [DecidableEq α] (key : NRow → α) (l : List NRow) : List NRow :=
  dropDupFirstAux key [] l

/-- Rule 1 mask: the row has both a TxnId and an Account. -/
def mask1 (r : NRow) : Prop := r.txnId ≠ "" ∧ r.account ≠ ""

instance : DecidablePred mask1 := fun r => by unfold mask1; infer_instance

/-- Rule 1 key: the (TxnId, Account) pair. -/
def key1 (r : NRow) : String × String := (r.txnId, r.account)

/-- Rule 1 (csv_to_postgres.py lines 324 to 335): dedup rows having both
TxnId and Account on that pair, keep first, and place them before the
remaining rows. -/
def rule1 (df : List NRow) : List NRow :=
  if df.any (fun r => decide (mask1 r)) then
    dropDupFirst key1 (df.filter (fun r => decide (mask1 r))) ++
      df.filter (fun r => decide (¬ mask1 r))
  else df

/-- Rule 2 mask: the row has a Reference. -/
def mask2 (r : NRow) : Prop := r.reference ≠ ""

instance : DecidablePred mask2 := fun r => by unfold mask2; infer_instance

/-- Rule 2 key: the (Reference, Date, Amount, Time) tuple. -/
def key2 (r : NRow) : String × String × ℚ × String :=
  (r.reference, r.date, r.amount, r.time)

/-- Rule 2 (csv_to_postgres.py lines 337 to 348): dedup rows having a
Reference on (Reference, Date, Amount, Time), keep first, and place them
before the remaining rows. -/
def rule2 (df : List NRow) : List NRow :=
  if df.any (fun r => decide (mask2 r)) then
    dropDupFirst key2 (df.filter (fun r => decide (mask2 r))) ++
      df.filter (fun r => decide (¬ mask2 r))
  else df

/-- Rule 3 (csv_to_postgres.py lines 350 to 360): dedup the whole frame
on the OriginalHash column, keep first.  The column holds
row_content_hash of the row, computed at normalization. -/
def rule3 (df : List NRow) : List NRow :=
  dropDupFirst row_content_hash df

/-- deduplicate_dataframe (csv_to_postgres.py lines 316 to 363): an empty
frame is returned unchanged, otherwise the three rules run in priority
order. -/
def deduplicate_dataframe (df : List NRow) : List NRow :=
  if df = [] then df else rule3 (rule2 (rule1 df))

/-! ### The persistence rows (database/models.py).
Transaction rows carry a row_hash under a unique constraint
(models.py line 43 and the unique_row_hash constraint, line 55).
DuplicateReview rows (models.py lines 137 to 163) are the staging area
of the review workflow; ProcessingLog rows are the audit trail. -/

structure PreparedTxn where
  date : String
  description : String
  amount : ℚ
  category : Option String := none
  vendor : Option String := none
  source : Option String := none
  txn_id : Option String := none
  reference : Option String := none
  account : Option String := none
  balance : Option ℚ := none
  original_hash : String
  possible_dup_group : Option String := none
  row_hash : String
  time_part : Option String := none
deriving DecidableEq, Repr

structure ReviewRow where
  group_id : String
  transaction_id : ℕ
  similarity_score : ℚ
  reviewed : Bool
  action_taken : Option String := none
  reviewed_by : Option String := none
  reviewed_at : Option ℕ := none
  notes : Option String := none
deriving DecidableEq, Repr

structure LogRow where
  operation_type : String
  source_file : Option String := none
  records_processed : ℕ := 0
  records_inserted : ℕ := 0
  records_skipped : ℕ := 0
  error_count : ℕ := 0
  status : String := "pending"
  notes : Option String := none
deriving DecidableEq, Repr

/-- The durable store seen by ingestion: the transactions table, the
duplicate_review table and the processing_log table. -/
structure IngestDB where
  txns : List PreparedTxn
  reviews : List ReviewRow := []
  logs : List LogRow := []
deriving DecidableEq, Repr

/-- The unique_row_hash constraint of the transactions table. -/
def uniqueRowHash (db : IngestDB) : Prop :=
  (db.txns.map (fun t => t.row_hash)).Nodup

/-- prepare_transactions_for_db on one row (csv_to_postgres.py lines 365
to 395): empty optional strings become NULL, the PostgreSQL row_hash is
stable_rowhash of date, description and amount only.  The round trip of
the ISO date string through a date object is the identity. -/
def prepare (r : NRow) : PreparedTxn :=
  let g := possible_dup_group r
  { date := r.date
    description := r.description
    amount := r.amount
    category := none
    vendor := none
    source := if r.source = "" then none else some r.source
    txn_id := if r.txnId = "" then none else some r.txnId
    reference := if r.reference = "" then none else some r.reference
    account := if r.account = "" then none else some r.account
    balance := r.balance
    original_hash := row_content_hash r
    possible_dup_group := if g = "" then none else some g
    row_hash := stable_rowhash r.date r.description r.amount
    time_part := if r.time = "" then none else some r.time }

/-- get_existing_row_hashes (database/database.py lines 261 to 270): the
set of stored row hashes among the given ones. -/
def get_existing_row_hashes (db : IngestDB) (hs : List String) : List String :=
  (db.txns.map (fun t => t.row_hash)).filter (fun h => h ∈ hs)

/-- insert_transactions_batch (database/database.py lines 195 to 203)
under the unique_row_hash constraint: the whole session commits when no
hash is duplicated, and rolls back leaving the store unchanged when the
constraint is violated. -/
def insert_transactions_batch (db : IngestDB) (ts : List PreparedTxn) :
    Bool × IngestDB :=
  if ((db.txns ++ ts).map (fun t => t.row_hash)).Nodup then
    (true, { db with txns := db.txns ++ ts })
  else (false, db)

/-- Counters reported by an ingestion run. -/
structure IngestOutcome where
  processed : ℕ
  inserted : ℕ
  skipped : ℕ
  failed : Bool
deriving DecidableEq, Repr

/-- The prepared transactions of a combined normalized batch
(csv_to_postgres.py lines 515 to 521): the deduplicated batch, row by
row through prepare_transactions_for_db. -/
def preparedOf (batch : List NRow) : List PreparedTxn :=
  (deduplicate_dataframe batch).map prepare

/-- The rows of the batch whose row_hash the existing-hash lookup did not
find (csv_to_postgres.py lines 523 to 530). -/
def newTransactions (db : IngestDB) (batch : List NRow) : List PreparedTxn :=
  (preparedOf batch).filter
    (fun t => ¬ t.row_hash ∈
      get_existing_row_hashes db ((preparedOf batch).map (fun t => t.row_hash)))

/-- The ingestion core of main (csv_to_postgres.py lines 511 to 557),
given the combined normalized data: deduplicate the batch, prepare the
rows, drop rows whose row_hash already exists in the store, insert the
remainder as one batch, and append the run to the processing log.  The
start and completion of the log entry are collapsed into the final
record.  The duplicate_review table is not touched on this path. -/
def ingestCore (db : IngestDB) (batch : List NRow) : IngestOutcome × IngestDB :=
  let transactions := preparedOf batch
  let newTs := newTransactions db batch
  let skippedN := transactions.length - newTs.length
  let ins := if newTs.isEmpty then (true, db) else insert_transactions_batch db newTs
  if ins.1 then
    ({ processed := transactions.length, inserted := newTs.length,
       skipped := skippedN, failed := false },
     { ins.2 with logs := ins.2.logs ++
        [{ operation_type := "csv_import_postgres",
           records_processed := transactions.length,
           records_inserted := newTs.length,
           records_skipped := skippedN, status := "completed" }] })
  else
    ({ processed := transactions.length, inserted := 0,
       skipped := skippedN, failed := true },
     { ins.2 with logs := ins.2.logs ++
        [{ operation_type := "csv_import_postgres",
           records_processed := transactions.length,
           records_skipped := skippedN, status := "failed" }] })

/-! ### The duplicate review workflow (mcp/tools/management_tools.py).
The tool state is the transactions, duplicate_review and processing_log
tables.  The transactions table here carries the soft-delete columns the
management SQL addresses (deleted_at, deletion_reason, notes).  Every
SQL statement runs through DatabaseManager.execute_query
(database.py lines 72 to 93), which commits per call, so each statement
takes effect independently; fallibility of the audit insert is an
explicit boolean input.  Timestamps produced by NOW() are an explicit
input. -/

structure MTxn where
  id : ℕ
  date : ℤ
  description : String
  amount : ℚ
  vendor : Option String := none
  account : Option String := none
  txn_id : Option String := none
  reference : Option String := none
  deleted_at : Option ℕ := none
  deletion_reason : Option String := none
  notes : Option String := none
deriving DecidableEq, Repr

structure MState where
  txns : List MTxn
  reviews : List ReviewRow := []
  logs : List LogRow := []
deriving DecidableEq, Repr

/-- Python truthiness of a nullable string column. -/
def truthy : Option String → Bool
  | none => false
  | some s => s ≠ ""

/-- The Python str.lower method, written over the character list so that
it evaluates inside the kernel. -/
def strLower (s : String) : String := String.mk (s.data.map Char.toLower)

/-- The duplicate criteria of stage_duplicates_for_review
(management_tools.py lines 344 to 394), applied to one ordered pair, in
source order: TxnId and Account; Reference with close date and amount;
case-insensitive description with close amount and date; vendor with
close amount and date.  Returns the similarity score and reason. -/
def pairCriterion (tol : ℚ) (t1 t2 : MTxn) : Option (ℚ × String) :=
  let dd : ℕ := (t1.date - t2.date).natAbs
  let ad : ℚ := ratAbs (ratSub t1.amount t2.amount)
  if truthy t1.txn_id ∧ truthy t2.txn_id ∧ t1.txn_id = t2.txn_id ∧
      t1.account = t2.account then
    some (1, "Same TxnId and Account")
  else if truthy t1.reference ∧ truthy t2.reference ∧
      t1.reference = t2.reference ∧ dd ≤ 1 ∧ ad ≤ tol then
    some (mkRat 95 100, "Same Reference, Date, and Amount")
  else if strLower t1.description = strLower t2.description ∧ ad ≤ tol ∧ dd ≤ 3 then
    some (if dd = 0 then mkRat 85 100 else mkRat 75 100,
      "Same Description and Amount, " ++ toString dd ++ " days apart")
  else if truthy t1.vendor ∧ truthy t2.vendor ∧
      Option.map strLower t1.vendor = Option.map strLower t2.vendor ∧
      ad ≤ tol ∧ dd ≤ 2 then
    some (mkRat 80 100, "Same Vendor and Amount, " ++ toString dd ++ " days apart")
  else none

/-- Zero-padded four-digit group numbering of the staging scan. -/
def pad4 (n : ℕ) : String :=
  if n < 10 then "000" ++ toString n
  else if n < 100 then "00" ++ toString n
  else if n < 1000 then "0" ++ toString n
  else toString n

/-- The ordered pairs visited by the nested staging loops
(management_tools.py lines 337 to 338): every i before j pair in list
order. -/
def orderedPairs : List MTxn → List (MTxn × MTxn)
  | [] => []
  | x :: xs => xs.map (fun y => (x, y)) ++ orderedPairs xs

/-- The unordered key registered in processed_pairs. -/
def pairKey (a b : ℕ) : ℕ × ℕ := (min a b, max a b)

/-- A duplicate group found by the scan. -/
structure GroupRec where
  gid : String
  t1 : MTxn
  t2 : MTxn
  score : ℚ
  reason : String
deriving DecidableEq, Repr

/-- The two duplicate_review rows inserted by _stage_duplicate_group
(management_tools.py lines 443 to 457). -/
def stageRows (gid : String) (t1 t2 : MTxn) (score : ℚ) (reason : String) :
    List ReviewRow :=
  [{ group_id := gid, transaction_id := t1.id, similarity_score := score,
     reviewed := false, notes := some reason },
   { group_id := gid, transaction_id := t2.id, similarity_score := score,
     reviewed := false, notes := some reason }]

/-- The pair scan of stage_duplicates_for_review (management_tools.py
lines 334 to 399): collect groups in pair order, skip a pair whose key
was already processed, and insert auto-staged rows immediately when
auto_stage holds and the score is at least 0.9. -/
def scanPairs (tol : ℚ) (autoStage : Bool) :
    List (MTxn × MTxn) → List GroupRec → List (ℕ × ℕ) → List ReviewRow →
    List GroupRec × List ReviewRow
  | [], groups, _, autoRows => (groups, autoRows)
  | (t1, t2) :: rest, groups, processed, autoRows =>
    if pairKey t1.id t2.id ∈ processed then
      scanPairs tol autoStage rest groups processed autoRows
    else
      match pairCriterion tol t1 t2 with
      | none => scanPairs tol autoStage rest groups processed autoRows
      | some (score, reason) =>
          let gid := "DUP_" ++ pad4 (groups.length + 1)
          let autoRows2 :=
            if autoStage ∧ score ≥ mkRat 90 100 then
              autoRows ++ stageRows gid t1 t2 score ("Auto-staged: " ++ reason)
            else autoRows
          scanPairs tol autoStage rest
            (groups ++ [{ gid := gid, t1 := t1, t2 := t2,
                          score := score, reason := reason }])
            (pairKey t1.id t2.id :: processed) autoRows2

inductive StageResult
  | tooFew
  | noneFound
  | staged (groups : ℕ)
deriving DecidableEq, Repr

/-- stage_duplicates_for_review (management_tools.py lines 304 to 441):
first delete every unreviewed review row, then scan the fetched window
of transactions pairwise; groups not auto-staged are staged afterwards.
The SQL window fetch is abstracted as the input list of transactions. -/
def stage_duplicates_for_review (st : MState) (txs : List MTxn) (tol : ℚ)
    (autoStage : Bool) : StageResult × MState :=
  let st1 := { st with reviews := st.reviews.filter (fun r => r.reviewed) }
  if txs.length < 2 then (.tooFew, st1)
  else
    let scan := scanPairs tol autoStage (orderedPairs txs) [] [] []
    if scan.1.isEmpty then (.noneFound, st1)
    else
      let stagedRows :=
        (scan.1.filter (fun grp => decide (¬ (autoStage ∧ grp.score ≥ mkRat 90 100)))).flatMap
          (fun grp => stageRows grp.gid grp.t1 grp.t2 grp.score grp.reason)
      (.staged scan.1.length,
       { st1 with reviews := st1.reviews ++ scan.2 ++ stagedRows })

/-! ### review_duplicate (management_tools.py lines 521 to 634). -/

/-- The pending rows of a group: duplicate_review rows of the group not
yet reviewed, inner joined to the transactions table.  The SQL orders by
transaction date; every use below is order-insensitive, so the order of
the store is kept. -/
def pendingRows (st : MState) (g : String) : List ReviewRow :=
  (st.reviews.filter (fun r => decide (r.group_id = g) && !r.reviewed)).filter
    (fun r => st.txns.any (fun t => t.id = r.transaction_id))

/-- Valid actions (management_tools.py line 546). -/
def validActions : List String := ["keep_both", "delete_duplicate", "merge", "ignore"]

/-- SQL note concatenation COALESCE(notes, with separator) plus the new
note. -/
def appendNote : Option String → String → String
  | none, n => n
  | some s, n => s ++ "; " ++ n

/-- The soft-delete UPDATE of one transaction (management_tools.py lines
569 to 580): deletion marker, fixed reason, appended note. -/
def softDel (now keepId : ℕ) (t : MTxn) : MTxn :=
  { t with deleted_at := some now,
           deletion_reason := some "duplicate_review",
           notes := some (appendNote t.notes
             ("Duplicate of transaction " ++ toString keepId)) }

/-- One UPDATE by transaction id applied to the whole table. -/
def update1 (tid : ℕ) (f : MTxn → MTxn) (txns : List MTxn) : List MTxn :=
  txns.map (fun t => if t.id = tid then f t else t)

/-- The soft-delete loop of the delete_duplicate action: every pending
member other than the kept one is updated, in pending order. -/
def softDeleteOthers (now keep : ℕ) (pending : List ReviewRow)
    (txns : List MTxn) : List MTxn :=
  pending.foldl
    (fun acc r =>
      if r.transaction_id ≠ keep then update1 r.transaction_id (softDel now keep) acc
      else acc) txns

/-- The completion UPDATE (management_tools.py lines 592 to 605): every
review row of the group, reviewed or not, is marked reviewed with the
action taken. -/
def markReviewed (now : ℕ) (g action noteTxt : String)
    (reviews : List ReviewRow) : List ReviewRow :=
  reviews.map (fun r =>
    if r.group_id = g then
      { r with reviewed := true, action_taken := some action,
               reviewed_by := some "mcp_user", reviewed_at := some now,
               notes := some (appendNote r.notes noteTxt) }
    else r)

inductive RevResult
  | ok (action : String)
  | errNoPending
  | errTooFew
  | errInvalidAction
  | errKeepRequired
  | errKeepNotInGroup
  | errAudit
deriving DecidableEq, Repr

/-- The audit record inserted into processing_log by a completed review
(management_tools.py lines 607 to 616). -/
def auditRow (g action : String) (n : ℕ) : LogRow :=
  { operation_type := "duplicate_review",
    source_file := some ("group_" ++ g),
    records_processed := n,
    status := "completed",
    notes := some ("Action: " ++ action) }

/-- The note appended to the review rows on completion. -/
def decisionNote (action notesP : String) : String :=
  if notesP ≠ "" then "User decision: " ++ notesP else "Action: " ++ action

/-- The tail of review_duplicate after the action branch: mark the group
reviewed, then insert the audit record; the marking statement has
already committed when the audit insert runs, so a failing audit insert
returns an error with the mutations left in place. -/
def reviewFinish (st : MState) (g action : String) (txns2 : List MTxn)
    (pending : List ReviewRow) (notesP : String) (auditOk : Bool) (now : ℕ) :
    RevResult × MState :=
  let st2 := { st with txns := txns2,
                       reviews := markReviewed now g action
                         (decisionNote action notesP) st.reviews }
  if auditOk then
    (.ok action,
     { st2 with logs := st2.logs ++ [auditRow g action pending.length] })
  else (.errAudit, st2)

/-- review_duplicate (management_tools.py lines 521 to 634): reject an
unknown or already reviewed group, a group of fewer than two pending
rows, an invalid action, and a delete_duplicate call whose kept id is
missing (or falsy) or not a member; otherwise apply the action and mark
the group reviewed. -/
def review_duplicate (st : MState) (g action : String) (keep : Option ℕ)
    (notesP : String) (auditOk : Bool) (now : ℕ) : RevResult × MState :=
  let pending := pendingRows st g
  if pending.isEmpty then (.errNoPending, st)
  else if pending.length < 2 then (.errTooFew, st)
  else if ¬ action ∈ validActions then (.errInvalidAction, st)
  else if action = "delete_duplicate" then
    match keep with
    | none => (.errKeepRequired, st)
    | some k =>
      if k = 0 then (.errKeepRequired, st)
      else if ¬ k ∈ pending.map (fun r => r.transaction_id) then
        (.errKeepNotInGroup, st)
      else
        reviewFinish st g action (softDeleteOthers now k pending st.txns)
          pending notesP auditOk now
  else reviewFinish st g action st.txns pending notesP auditOk now

/-! ### Semantics of keep-first deduplication. -/

theorem dropDupFirstAux_sublist [DecidableEq α] (key : NRow → α) :
    ∀ (l : List NRow) (seen : List α), List.Sublist (dropDupFirstAux key seen l) l := by
  intro l
  induction l with
  | nil => intro seen; simp [dropDupFirstAux]
  | cons x xs ih =>
    intro seen
    unfold dropDupFirstAux
    by_cases h : key x ∈ seen
    · rw [if_pos h]; exact (ih seen).cons x
    · rw [if_neg h]; exact (ih (key x :: seen)).cons₂ x

theorem mem_of_mem_dropDupFirstAux [DecidableEq α] {key : NRow → α}
    {l : List NRow} {seen : List α} {r : NRow}
    (h : r ∈ dropDupFirstAux key seen l) : r ∈ l :=
  (dropDupFirstAux_sublist key l seen).mem h

/-- Dropping elements whose key is the excluded one does not change the
first hit of a different key. -/
theorem find?_filter_seen [DecidableEq α] (key : NRow → α) (r : NRow) (kx : α)
    (hk : kx ≠ key r) :
    ∀ (xs : List NRow) (seen : List α),
    (xs.filter (fun x => decide (¬ key x ∈ kx :: seen))).find?
        (fun x => decide (key x = key r)) =
      (xs.filter (fun x => decide (¬ key x ∈ seen))).find?
        (fun x => decide (key x = key r)) := by
  intro xs
  induction xs with
  | nil => intro seen; rfl
  | cons x xs ih =>
    intro seen
    by_cases hs : key x ∈ seen
    · rw [List.filter_cons_of_neg (by simp [hs]),
          List.filter_cons_of_neg (by simp [hs])]
      exact ih seen
    · by_cases hx : key x = kx
      · rw [List.filter_cons_of_neg (by simp [hx]),
            List.filter_cons_of_pos (by simp [hs])]
        rw [List.find?_cons_of_neg _ (by simp [hx, hk])]
        exact ih seen
      · rw [List.filter_cons_of_pos (by simp [hs, hx]),
            List.filter_cons_of_pos (by simp [hs])]
        by_cases hp : key x = key r
        · rw [List.find?_cons_of_pos _ (by simp [hp]),
              List.find?_cons_of_pos _ (by simp [hp])]
        · rw [List.find?_cons_of_neg _ (by simp [hp]),
              List.find?_cons_of_neg _ (by simp [hp])]
          exact ih seen

/-- Membership in the keep-first dedup, generalized over the seen keys:
a row survives exactly when its key is unseen and it is the first
not-yet-seen row bearing its key. -/
theorem mem_dropDupFirstAux_iff [DecidableEq α] (key : NRow → α) (r : NRow) :
    ∀ (l : List NRow) (seen : List α),
    (r ∈ dropDupFirstAux key seen l ↔
      ¬ key r ∈ seen ∧
        (l.filter (fun x => decide (¬ key x ∈ seen))).find?
          (fun x => decide (key x = key r)) = some r) := by
  intro l
  induction l with
  | nil => intro seen; simp [dropDupFirstAux]
  | cons x xs ih =>
    intro seen
    unfold dropDupFirstAux
    by_cases hx : key x ∈ seen
    · rw [if_pos hx, List.filter_cons_of_neg (by simp [hx])]
      exact ih seen
    · rw [if_neg hx, List.filter_cons_of_pos (by simp [hx])]
      by_cases hk : key x = key r
      · rw [List.find?_cons_of_pos _ (by simp [hk])]
        simp only [List.mem_cons]
        constructor
        · rintro (rfl | hr)
          · exact ⟨by rw [← hk]; exact hx, rfl⟩
          · have h2 := (ih (key x :: seen)).mp hr
            exact absurd
              (show key r ∈ key x :: seen by
                rw [← hk]; exact List.mem_cons_self (key x) seen) h2.1
        · rintro ⟨hns, heq⟩
          exact Or.inl (Option.some.inj heq).symm
      · rw [List.find?_cons_of_neg _ (by simp [hk])]
        simp only [List.mem_cons]
        rw [ih (key x :: seen)]
        rw [find?_filter_seen key r (key x) hk xs seen]
        constructor
        · rintro (rfl | ⟨hns, hf⟩)
          · exact absurd rfl hk
          · exact ⟨fun hmem => hns (List.mem_cons_of_mem _ hmem), hf⟩
        · rintro ⟨hns, hf⟩
          refine Or.inr ⟨?_, hf⟩
          simp only [List.mem_cons, not_or]
          exact ⟨fun he => hk he.symm, hns⟩

/-- Membership in keep-first dedup: a row of the list survives exactly
when it is the first row bearing its key. -/
theorem mem_dropDupFirst_iff [DecidableEq α] (key : NRow → α) (l : List NRow)
    (r : NRow) :
    r ∈ dropDupFirst key l ↔
      l.find? (fun x => decide (key x = key r)) = some r := by
  unfold dropDupFirst
  rw [mem_dropDupFirstAux_iff]
  have hfil : l.filter (fun x => decide (¬ key x ∈ ([] : List α))) = l := by
    apply List.filter_eq_self.mpr
    intro a _
    simp
  rw [hfil]
  simp

/-! ### Tier lemmas. -/

theorem rule1_filter_unmasked (df : List NRow) :
    (rule1 df).filter (fun r => decide (¬ mask1 r)) =
      df.filter (fun r => decide (¬ mask1 r)) := by
  unfold rule1
  split
  · rw [List.filter_append]
    have h1 : (dropDupFirst key1
        (df.filter (fun r => decide (mask1 r)))).filter
          (fun r => decide (¬ mask1 r)) = [] := by
      rw [List.filter_eq_nil_iff]
      intro a ha
      have hmem : a ∈ df.filter (fun r => decide (mask1 r)) :=
        mem_of_mem_dropDupFirstAux ha
      have hm := of_decide_eq_true (List.mem_filter.mp hmem).2
      simp only [decide_eq_true_eq]
      exact not_not_intro hm
    have h2 : (df.filter (fun r => decide (¬ mask1 r))).filter
        (fun r => decide (¬ mask1 r)) = df.filter (fun r => decide (¬ mask1 r)) :=
      List.filter_eq_self.mpr (fun a ha => (List.mem_filter.mp ha).2)
    rw [h1, h2, List.nil_append]
  · rfl

theorem rule2_filter_unmasked (df : List NRow) :
    (rule2 df).filter (fun r => decide (¬ mask2 r)) =
      df.filter (fun r => decide (¬ mask2 r)) := by
  unfold rule2
  split
  · rw [List.filter_append]
    have h1 : (dropDupFirst key2
        (df.filter (fun r => decide (mask2 r)))).filter
          (fun r => decide (¬ mask2 r)) = [] := by
      rw [List.filter_eq_nil_iff]
      intro a ha
      have hmem : a ∈ df.filter (fun r => decide (mask2 r)) :=
        mem_of_mem_dropDupFirstAux ha
      have hm := of_decide_eq_true (List.mem_filter.mp hmem).2
      simp only [decide_eq_true_eq]
      exact not_not_intro hm
    have h2 : (df.filter (fun r => decide (¬ mask2 r))).filter
        (fun r => decide (¬ mask2 r)) = df.filter (fun r => decide (¬ mask2 r)) :=
      List.filter_eq_self.mpr (fun a ha => (List.mem_filter.mp ha).2)
    rw [h1, h2, List.nil_append]
  · rfl

theorem mem_rule1_iff (df : List NRow) (r : NRow) (hr : r ∈ df) (hm : mask1 r) :
    r ∈ rule1 df ↔
      (df.filter (fun x => decide (mask1 x))).find?
        (fun x => decide (key1 x = key1 r)) = some r := by
  unfold rule1
  have hany : df.any (fun x => decide (mask1 x)) = true :=
    List.any_eq_true.mpr ⟨r, hr, decide_eq_true hm⟩
  rw [if_pos hany, List.mem_append]
  have hnot : ¬ r ∈ df.filter (fun x => decide (¬ mask1 x)) := by
    intro hmem
    exact (of_decide_eq_true (List.mem_filter.mp hmem).2) hm
  rw [mem_dropDupFirst_iff]
  constructor
  · rintro (h | h)
    · exact h
    · exact absurd h hnot
  · exact Or.inl

theorem mem_rule2_iff (df : List NRow) (r : NRow) (hr : r ∈ df) (hm : mask2 r) :
    r ∈ rule2 df ↔
      (df.filter (fun x => decide (mask2 x))).find?
        (fun x => decide (key2 x = key2 r)) = some r := by
  unfold rule2
  have hany : df.any (fun x => decide (mask2 x)) = true :=
    List.any_eq_true.mpr ⟨r, hr, decide_eq_true hm⟩
  rw [if_pos hany, List.mem_append]
  have hnot : ¬ r ∈ df.filter (fun x => decide (¬ mask2 x)) := by
    intro hmem
    exact (of_decide_eq_true (List.mem_filter.mp hmem).2) hm
  rw [mem_dropDupFirst_iff]
  constructor
  · rintro (h | h)
    · exact h
    · exact absurd h hnot
  · exact Or.inl

theorem mem_rule3_iff (df : List NRow) (r : NRow) :
    r ∈ rule3 df ↔
      df.find? (fun x => decide (row_content_hash x = row_content_hash r)) =
        some r :=
  mem_dropDupFirst_iff row_content_hash df r

/-! ### Injectivity of the content-hash payload in the TxnId slot. -/

theorem row_content_hash_ne_of_txnId_ne (r1 r2 : NRow)
    (hd : r1.date = r2.date) (hds : r1.description = r2.description)
    (ha : r1.amount = r2.amount) (href : r1.reference = r2.reference)
    (ht : r1.time = r2.time) (hac : r1.account = r2.account)
    (hb : r1.balance = r2.balance) (htx : r1.txnId ≠ r2.txnId) :
    row_content_hash r1 ≠ row_content_hash r2 := by
  intro h
  apply htx
  have h2 : 'h' :: payloadChars r1 = 'h' :: payloadChars r2 :=
    congrArg String.data h
  have h3 : payloadChars r1 = payloadChars r2 := by
    injection h2
  unfold payloadChars at h3
  rw [hd, hds, ha, href, ht, hac, hb] at h3
  simp only [List.append_assoc] at h3
  replace h3 := List.append_cancel_left h3
  replace h3 := List.append_cancel_left h3
  replace h3 := List.append_cancel_left h3
  replace h3 := List.append_cancel_left h3
  replace h3 := List.append_cancel_left h3
  replace h3 := List.append_cancel_left h3
  replace h3 := List.append_cancel_left h3
  exact jsonStr_injective (List.append_cancel_right h3)

/-! ### Ingestion pipeline lemmas. -/

theorem newTransactions_eq_store_filter (db : IngestDB) (batch : List NRow) :
    newTransactions db batch =
      (preparedOf batch).filter
        (fun t => decide (¬ t.row_hash ∈ db.txns.map (fun s => s.row_hash))) := by
  unfold newTransactions
  apply List.filter_congr
  intro t ht
  have hmem : t.row_hash ∈ (preparedOf batch).map (fun t => t.row_hash) :=
    List.mem_map_of_mem _ ht
  by_cases hst : t.row_hash ∈ db.txns.map (fun s => s.row_hash)
  · have hex : t.row_hash ∈
        get_existing_row_hashes db ((preparedOf batch).map (fun t => t.row_hash)) := by
      unfold get_existing_row_hashes
      exact List.mem_filter.mpr ⟨hst, decide_eq_true hmem⟩
    simp [hex, hst]
  · have hex : ¬ t.row_hash ∈
        get_existing_row_hashes db ((preparedOf batch).map (fun t => t.row_hash)) := by
      unfold get_existing_row_hashes
      intro hc
      exact hst (List.mem_filter.mp hc).1
    simp [hex, hst]

theorem ingestCore_reviews (db : IngestDB) (batch : List NRow) :
    (ingestCore db batch).2.reviews = db.reviews := by
  by_cases he : (newTransactions db batch).isEmpty
  · simp [ingestCore, he]
  · by_cases hn : (db.txns.map (fun t => t.row_hash) ++
        (newTransactions db batch).map (fun t => t.row_hash)).Nodup
    · simp [ingestCore, insert_transactions_batch, he, hn]
    · simp [ingestCore, insert_transactions_batch, he, hn]

theorem ingestCore_success (db : IngestDB) (batch : List NRow)
    (h : (ingestCore db batch).1.failed = false) :
    (ingestCore db batch).2.txns = db.txns ++ newTransactions db batch ∧
      (ingestCore db batch).1.inserted = (newTransactions db batch).length := by
  by_cases he : (newTransactions db batch).isEmpty
  · have hnil : newTransactions db batch = [] := List.isEmpty_iff.mp he
    constructor
    · rw [hnil, List.append_nil]
      simp [ingestCore, he]
    · simp [ingestCore, he, hnil]
  · by_cases hn : (db.txns.map (fun t => t.row_hash) ++
        (newTransactions db batch).map (fun t => t.row_hash)).Nodup
    · constructor
      · simp [ingestCore, insert_transactions_batch, he, hn]
      · simp [ingestCore, insert_transactions_batch, he, hn]
    · exact absurd h (by simp [ingestCore, insert_transactions_batch, he, hn])

theorem ingestCore_failure (db : IngestDB) (batch : List NRow)
    (h : (ingestCore db batch).1.failed = true) :
    (ingestCore db batch).2.txns = db.txns ∧
      (ingestCore db batch).1.inserted = 0 := by
  by_cases he : (newTransactions db batch).isEmpty
  · exact absurd h (by simp [ingestCore, he])
  · by_cases hn : (db.txns.map (fun t => t.row_hash) ++
        (newTransactions db batch).map (fun t => t.row_hash)).Nodup
    · exact absurd h (by simp [ingestCore, insert_transactions_batch, he, hn])
    · constructor
      · simp [ingestCore, insert_transactions_batch, he, hn]
      · simp [ingestCore, insert_transactions_batch, he, hn]

theorem ingestCore_fails_of_not_nodup (db : IngestDB) (batch : List NRow)
    (hne : newTransactions db batch ≠ [])
    (hdup : ¬ (db.txns.map (fun t => t.row_hash) ++
      (newTransactions db batch).map (fun t => t.row_hash)).Nodup) :
    (ingestCore db batch).1.failed = true := by
  have he : (newTransactions db batch).isEmpty = false := by
    cases hni : newTransactions db batch with
    | nil => exact absurd hni hne
    | cons a l => rfl
  simp [ingestCore, insert_transactions_batch, he, hdup]

/-! ### Two-row batches. -/

theorem rule2_id_of_no_ref (l : List NRow) (h : ∀ r ∈ l, r.reference = "") :
    rule2 l = l := by
  unfold rule2
  rw [if_neg]
  intro hc
  rcases List.any_eq_true.mp hc with ⟨r, hr, hm⟩
  exact (of_decide_eq_true hm) (h r hr)

theorem rule3_pair (a b : NRow) (h : row_content_hash a ≠ row_content_hash b) :
    rule3 [a, b] = [a, b] := by
  unfold rule3 dropDupFirst
  simp [dropDupFirstAux, Ne.symm h]

theorem rule1_pair (r1 r2 : NRow) (hkey : key1 r1 ≠ key1 r2) :
    rule1 [r1, r2] = [r1, r2] ∨ rule1 [r1, r2] = [r2, r1] := by
  unfold rule1
  by_cases h1 : mask1 r1 <;> by_cases h2 : mask1 r2
  · left
    rw [if_pos (by simp [h1, h2])]
    have hfp : List.filter (fun r => decide (mask1 r)) [r1, r2] = [r1, r2] := by
      simp [h1, h2]
    have hfn : List.filter (fun r => decide (¬ mask1 r)) [r1, r2] = [] := by
      simp [h1, h2]
    rw [hfp, hfn]
    simp [dropDupFirst, dropDupFirstAux, Ne.symm hkey]
  · left
    rw [if_pos (by simp [h1])]
    have hfp : List.filter (fun r => decide (mask1 r)) [r1, r2] = [r1] := by
      simp [h1, h2]
    have hfn : List.filter (fun r => decide (¬ mask1 r)) [r1, r2] = [r2] := by
      simp [h1, h2]
    rw [hfp, hfn]
    rfl
  · right
    rw [if_pos (by simp [h2])]
    have hfp : List.filter (fun r => decide (mask1 r)) [r1, r2] = [r2] := by
      simp [h1, h2]
    have hfn : List.filter (fun r => decide (¬ mask1 r)) [r1, r2] = [r1] := by
      simp [h1, h2]
    rw [hfp, hfn]
    rfl
  · left
    rw [if_neg (by simp [h1, h2])]

theorem dedup_pair (r1 r2 : NRow)
    (href1 : r1.reference = "") (href2 : r2.reference = "")
    (hkey : key1 r1 ≠ key1 r2)
    (hh : row_content_hash r1 ≠ row_content_hash r2) :
    deduplicate_dataframe [r1, r2] = [r1, r2] ∨
      deduplicate_dataframe [r1, r2] = [r2, r1] := by
  unfold deduplicate_dataframe
  rw [if_neg (by simp)]
  rcases rule1_pair r1 r2 hkey with h | h
  · left
    rw [h, rule2_id_of_no_ref _ (by
      intro r hr
      rcases List.mem_pair.mp hr with rfl | rfl
      · exact href1
      · exact href2)]
    exact rule3_pair r1 r2 hh
  · right
    rw [h, rule2_id_of_no_ref _ (by
      intro r hr
      rcases List.mem_pair.mp hr with rfl | rfl
      · exact href2
      · exact href1)]
    exact rule3_pair r2 r1 (Ne.symm hh)

/-! ### Review workflow lemmas. -/

theorem softDel_id (now keep : ℕ) (t : MTxn) : (softDel now keep t).id = t.id := rfl

theorem softDeleteOthers_eq_map (now keep : ℕ) (pending : List ReviewRow) :
    ∀ txns : List MTxn, (pending.map (fun r => r.transaction_id)).Nodup →
    softDeleteOthers now keep pending txns =
      txns.map (fun t =>
        if pending.any
            (fun r => decide (r.transaction_id = t.id ∧ r.transaction_id ≠ keep))
        then softDel now keep t else t) := by
  induction pending with
  | nil =>
    intro txns _
    simp [softDeleteOthers]
  | cons r rest ih =>
    intro txns hnd
    have hnd2 : (r.transaction_id ::
        rest.map (fun x => x.transaction_id)).Nodup := by
      rw [List.map_cons] at hnd; exact hnd
    have hpair := List.nodup_cons.mp hnd2
    have hnotin : ¬ r.transaction_id ∈ rest.map (fun x => x.transaction_id) :=
      hpair.1
    have htail : (rest.map (fun x => x.transaction_id)).Nodup := hpair.2
    by_cases hrk : r.transaction_id ≠ keep
    · have hstep : softDeleteOthers now keep (r :: rest) txns =
          softDeleteOthers now keep rest
            (update1 r.transaction_id (softDel now keep) txns) := by
        unfold softDeleteOthers
        rw [List.foldl_cons, if_pos hrk]
      rw [hstep, ih _ htail]
      unfold update1
      rw [List.map_map]
      apply List.map_congr_left
      intro t _
      by_cases ht : t.id = r.transaction_id
      · have hinner : (fun t => if t.id = r.transaction_id
            then softDel now keep t else t) t = softDel now keep t := if_pos ht
        have hrest : rest.any (fun x =>
            decide (x.transaction_id = (softDel now keep t).id ∧
              x.transaction_id ≠ keep)) = false := by
          rw [List.any_eq_false]
          intro x hx
          simp only [decide_eq_true_eq, not_and]
          intro hxe _
          exact False.elim (hnotin (by
            rw [← ht, ← softDel_id now keep t, ← hxe]
            exact List.mem_map_of_mem _ hx))
        have houter : (r :: rest).any (fun x =>
            decide (x.transaction_id = t.id ∧ x.transaction_id ≠ keep)) = true := by
          rw [List.any_cons,
            decide_eq_true (show r.transaction_id = t.id ∧ r.transaction_id ≠ keep
              from ⟨ht.symm, hrk⟩), Bool.true_or]
        simp only [Function.comp_apply, hinner, hrest, houter, if_true, if_false,
          Bool.false_eq_true, ite_true, ite_false]
      · have hinner : (fun t => if t.id = r.transaction_id
            then softDel now keep t else t) t = t := if_neg ht
        have houter : (r :: rest).any (fun x =>
            decide (x.transaction_id = t.id ∧ x.transaction_id ≠ keep)) =
              rest.any (fun x =>
                decide (x.transaction_id = t.id ∧ x.transaction_id ≠ keep)) := by
          rw [List.any_cons]
          have : decide (r.transaction_id = t.id ∧ r.transaction_id ≠ keep) = false := by
            simp only [decide_eq_false_iff_not, not_and]
            intro hc
            exact absurd hc.symm ht
          rw [this, Bool.false_or]
        simp only [Function.comp_apply, hinner, houter]
    · have hstep : softDeleteOthers now keep (r :: rest) txns =
          softDeleteOthers now keep rest txns := by
        unfold softDeleteOthers
        rw [List.foldl_cons, if_neg hrk]
      rw [hstep, ih _ htail]
      apply List.map_congr_left
      intro t _
      have houter : (r :: rest).any (fun x =>
          decide (x.transaction_id = t.id ∧ x.transaction_id ≠ keep)) =
            rest.any (fun x =>
              decide (x.transaction_id = t.id ∧ x.transaction_id ≠ keep)) := by
        rw [List.any_cons]
        have : decide (r.transaction_id = t.id ∧ r.transaction_id ≠ keep) = false := by
          simp only [decide_eq_false_iff_not, not_and]
          intro _
          exact fun hc => hc (by push_neg at hrk; exact hrk)
        rw [this, Bool.false_or]
      rw [houter]

theorem mem_markReviewed_of_group (now : ℕ) (g action noteTxt : String)
    (reviews : List ReviewRow) (r : ReviewRow)
    (hr : r ∈ markReviewed now g action noteTxt reviews) (hg : r.group_id = g) :
    r.reviewed = true ∧ r.action_taken = some action := by
  unfold markReviewed at hr
  rcases List.mem_map.mp hr with ⟨r0, hr0, heq⟩
  by_cases h0 : r0.group_id = g
  · rw [if_pos h0] at heq
    rw [← heq]
    exact ⟨rfl, rfl⟩
  · rw [if_neg h0] at heq
    rw [← heq] at hg
    exact absurd hg h0

theorem pendingRows_marked (txns2 : List MTxn) (logs2 : List LogRow) (now : ℕ)
    (g action noteTxt : String) (reviews : List ReviewRow) :
    pendingRows
      { txns := txns2, reviews := markReviewed now g action noteTxt reviews,
        logs := logs2 } g = [] := by
  unfold pendingRows
  have h1 : (markReviewed now g action noteTxt reviews).filter
      (fun r => decide (r.group_id = g) && !r.reviewed) = [] := by
    rw [List.filter_eq_nil_iff]
    intro r hr
    unfold markReviewed at hr
    rcases List.mem_map.mp hr with ⟨r0, _, heq⟩
    by_cases h0 : r0.group_id = g
    · rw [if_pos h0] at heq
      rw [← heq]
      simp
    · rw [if_neg h0] at heq
      rw [← heq]
      simp [h0]
  rw [h1]
  rfl

theorem review_duplicate_noPending (st : MState) (g a : String) (k : Option ℕ)
    (np : String) (audit : Bool) (now : ℕ)
    (h : (pendingRows st g).isEmpty) :
    review_duplicate st g a k np audit now = (.errNoPending, st) := by
  unfold review_duplicate
  rw [if_pos h]

theorem reviewFinish_ok_shape (st : MState) (g a : String) (txns2 : List MTxn)
    (pending : List ReviewRow) (np : String) (audit : Bool) (now : ℕ)
    (a0 : String) (st1 : MState)
    (h : reviewFinish st g a txns2 pending np audit now = (.ok a0, st1)) :
    audit = true ∧ a0 = a ∧
      st1 = { txns := txns2,
              reviews := markReviewed now g a (decisionNote a np) st.reviews,
              logs := st.logs ++ [auditRow g a pending.length] } := by
  unfold reviewFinish at h
  by_cases haud : audit
  · rw [if_pos haud] at h
    rw [Prod.mk.injEq] at h
    obtain ⟨hres, hst⟩ := h
    injection hres with ha0
    exact ⟨haud, ha0.symm, hst.symm⟩
  · rw [if_neg haud] at h
    rw [Prod.mk.injEq] at h
    exact absurd h.1 (by simp)

theorem reviewFinish_auditFail (st : MState) (g a : String) (txns2 : List MTxn)
    (pending : List ReviewRow) (np : String) (now : ℕ) :
    reviewFinish st g a txns2 pending np false now =
      (.errAudit,
        { txns := txns2,
          reviews := markReviewed now g a (decisionNote a np) st.reviews,
          logs := st.logs }) := by
  unfold reviewFinish
  rw [if_neg (by simp)]

/-- A successful review call (audit insert succeeding) fully determines
the resulting state, and the same call with a failing audit insert
returns an error while leaving the same mutations committed, minus the
audit record. -/
theorem review_duplicate_ok_full (st : MState) (g a : String) (k : Option ℕ)
    (np : String) (now : ℕ) (a0 : String) (st1 : MState)
    (h : review_duplicate st g a k np true now = (.ok a0, st1)) :
    a0 = a ∧ ∃ txns2,
      st1 = { txns := txns2,
              reviews := markReviewed now g a (decisionNote a np) st.reviews,
              logs := st.logs ++ [auditRow g a (pendingRows st g).length] } ∧
      review_duplicate st g a k np false now =
        (.errAudit,
          { txns := txns2,
            reviews := markReviewed now g a (decisionNote a np) st.reviews,
            logs := st.logs }) := by
  unfold review_duplicate at h ⊢
  by_cases h1 : (pendingRows st g).isEmpty
  · rw [if_pos h1] at h
    exact absurd (congrArg Prod.fst h) (by simp)
  rw [if_neg h1] at h ⊢
  by_cases h2 : (pendingRows st g).length < 2
  · rw [if_pos h2] at h
    exact absurd (congrArg Prod.fst h) (by simp)
  rw [if_neg h2] at h ⊢
  by_cases h3 : ¬ a ∈ validActions
  · rw [if_pos h3] at h
    exact absurd (congrArg Prod.fst h) (by simp)
  rw [if_neg h3] at h ⊢
  by_cases h4 : a = "delete_duplicate"
  · rw [if_pos h4] at h ⊢
    cases k with
    | none =>
      exact absurd (congrArg Prod.fst h) (by simp)
    | some kk =>
      dsimp only at h ⊢
      by_cases h5 : kk = 0
      · rw [if_pos h5] at h
        exact absurd (congrArg Prod.fst h) (by simp)
      rw [if_neg h5] at h ⊢
      by_cases h6 : ¬ kk ∈ (pendingRows st g).map (fun r => r.transaction_id)
      · rw [if_pos h6] at h
        exact absurd (congrArg Prod.fst h) (by simp)
      rw [if_neg h6] at h ⊢
      obtain ⟨haud, ha0, hst⟩ := reviewFinish_ok_shape _ _ _ _ _ _ _ _ _ _ h
      refine ⟨ha0, softDeleteOthers now kk (pendingRows st g) st.txns, hst, ?_⟩
      exact reviewFinish_auditFail st g a _ (pendingRows st g) np now
  · rw [if_neg h4] at h ⊢
    obtain ⟨haud, ha0, hst⟩ := reviewFinish_ok_shape _ _ _ _ _ _ _ _ _ _ h
    refine ⟨ha0, st.txns, hst, ?_⟩
    exact reviewFinish_auditFail st g a _ (pendingRows st g) np now

/-! ### Claim theorems. -/

/-- C9 (code_bug): the spec says a parenthesized amount such as (4.50)
parses as the negative -4.50, and the replacement of parentheses by
minus signs in clean_amount is plainly an attempt at that convention;
but replacing BOTH parentheses gives the string -4.50- , which
to_numeric coerces to missing, so clean_amount loses the row instead of
negating it.  Plain and currency-formatted signed amounts do parse. -/
theorem C9_parenthesized_amount_lost :
    clean_amount "(4.50)" = none ∧
    clean_amount "($1,234.56)" = none ∧
    parensToMinus (stripAmountChars "(4.50)") = "-4.50-" ∧
    clean_amount "-4.50" = some (mkRat (-45) 10) ∧
    clean_amount "$1,234.56" = some (mkRat 123456 100) := by
  refine ⟨?_, ?_, ?_, ?_, ?_⟩ <;> decide

/-- C4 (confirmed): row_content_hash is a pure function of exactly the
eight fingerprint fields date, description, amount, txnId, reference,
time, account, balance: rows agreeing on them hash alike, in particular
rows differing only in source; and the hash is defined (a nonempty
digest) for every row, absent optional fields entering the payload as
the empty string (or zero) rather than being omitted. -/
theorem C4_content_hash_pure_function :
    (∀ r1 r2 : NRow,
      r1.date = r2.date → r1.description = r2.description →
      r1.amount = r2.amount → r1.txnId = r2.txnId →
      r1.reference = r2.reference → r1.time = r2.time →
      r1.account = r2.account → r1.balance = r2.balance →
      row_content_hash r1 = row_content_hash r2) ∧
    (∀ (r : NRow) (s : String),
      row_content_hash { r with source := s } = row_content_hash r) ∧
    (∀ r : NRow, row_content_hash r ≠ "") := by
  refine ⟨?_, ?_, ?_⟩
  · intro r1 r2 hd hds ha ht href htm hac hb
    unfold row_content_hash payloadChars
    rw [hd, hds, ha, ht, href, htm, hac, hb]
  · intro r s
    rfl
  · intro r h
    have h2 := congrArg String.data h
    simp [row_content_hash] at h2

/-- Witness for C4 at a concrete pair of rows differing only in source. -/
theorem C4_witness :
    row_content_hash
        { date := "2024-01-03", description := "COFFEE SHOP #102",
          amount := mkRat (-9) 2, source := "january.csv" } =
      row_content_hash
        { date := "2024-01-03", description := "COFFEE SHOP #102",
          amount := mkRat (-9) 2, source := "february.csv" } :=
  C4_content_hash_pure_function.1 _ _ rfl rfl rfl rfl rfl rfl rfl rfl

/-- The prepared txn_id column determines the normalized TxnId. -/
theorem prepare_txnId_inj (r1 r2 : NRow)
    (h : (prepare r1).txn_id = (prepare r2).txn_id) : r1.txnId = r2.txnId := by
  by_cases e1 : r1.txnId = "" <;> by_cases e2 : r2.txnId = "" <;>
    simp [prepare, e1, e2] at h <;> first
      | (rw [e1, e2])
      | exact h

/-- row_hash congruence: prepared rows agreeing on date, description and
amount share a row_hash. -/
theorem prepare_row_hash_congr (r1 r2 : NRow)
    (hd : r1.date = r2.date) (hds : r1.description = r2.description)
    (ha : r1.amount = r2.amount) :
    (prepare r1).row_hash = (prepare r2).row_hash := by
  show stable_rowhash r1.date r1.description r1.amount =
    stable_rowhash r2.date r2.description r2.amount
  rw [hd, hds, ha]

/-- Two dedup survivors of one batch sharing (date, description, amount)
but not txnId, neither already stored, fail the whole batch insert on
the unique row_hash constraint, leaving the store unchanged. -/
theorem ingest_fails_of_collision (db : IngestDB) (batch : List NRow)
    (r1 r2 : NRow)
    (hr1 : r1 ∈ deduplicate_dataframe batch)
    (hr2 : r2 ∈ deduplicate_dataframe batch)
    (hd : r1.date = r2.date) (hds : r1.description = r2.description)
    (ha : r1.amount = r2.amount) (htx : r1.txnId ≠ r2.txnId)
    (hst : ¬ (prepare r1).row_hash ∈ db.txns.map (fun s => s.row_hash)) :
    (ingestCore db batch).1.failed = true ∧
      (ingestCore db batch).2.txns = db.txns := by
  have ht1 : prepare r1 ∈ preparedOf batch := List.mem_map_of_mem prepare hr1
  have ht2 : prepare r2 ∈ preparedOf batch := List.mem_map_of_mem prepare hr2
  have hh12 : (prepare r1).row_hash = (prepare r2).row_hash :=
    prepare_row_hash_congr r1 r2 hd hds ha
  have hst2 : ¬ (prepare r2).row_hash ∈ db.txns.map (fun s => s.row_hash) := by
    rw [← hh12]; exact hst
  have hn1 : prepare r1 ∈ newTransactions db batch := by
    rw [newTransactions_eq_store_filter]
    exact List.mem_filter.mpr ⟨ht1, decide_eq_true hst⟩
  have hn2 : prepare r2 ∈ newTransactions db batch := by
    rw [newTransactions_eq_store_filter]
    exact List.mem_filter.mpr ⟨ht2, decide_eq_true hst2⟩
  have hne : prepare r1 ≠ prepare r2 := by
    intro he
    exact htx (prepare_txnId_inj r1 r2 (congrArg PreparedTxn.txn_id he))
  have hdup : ¬ (db.txns.map (fun t => t.row_hash) ++
      (newTransactions db batch).map (fun t => t.row_hash)).Nodup := by
    intro hc
    have hnew := hc.of_append_right
    exact hne (List.inj_on_of_nodup_map hnew hn1 hn2 hh12)
  have hne2 : newTransactions db batch ≠ [] := by
    intro hc
    rw [hc] at hn1
    exact List.not_mem_nil _ hn1
  have hfail := ingestCore_fails_of_not_nodup db batch hne2 hdup
  exact ⟨hfail, (ingestCore_failure db batch hfail).1⟩

/-- A prepared row whose row_hash the store already holds is filtered
out of the insert set, and ingestion leaves the review table unchanged. -/
theorem ingest_skips_stored_hash (db : IngestDB) (batch : List NRow)
    (t : PreparedTxn) (_ht : t ∈ preparedOf batch)
    (hst : t.row_hash ∈ db.txns.map (fun s => s.row_hash)) :
    ¬ t ∈ newTransactions db batch ∧
      (ingestCore db batch).2.reviews = db.reviews := by
  constructor
  · intro hc
    rw [newTransactions_eq_store_filter] at hc
    exact (of_decide_eq_true (List.mem_filter.mp hc).2) hst
  · exact ingestCore_reviews db batch

/-- C10 (confirmed): the cross-batch duplicate key row_hash is a
strictly coarser fingerprint than the content hash: it is a function of
(date, description, amount) alone; a prepared row whose row_hash is
already stored is skipped by the existing-hash filter with no review
group created; and two dedup survivors of one batch that agree on those
three fields while differing in txnId collide on the unique row_hash
constraint, failing the batch insert. -/
theorem C10_row_hash_coarser_fingerprint :
    (∀ r1 r2 : NRow,
      r1.date = r2.date → r1.description = r2.description →
      r1.amount = r2.amount →
      (prepare r1).row_hash = (prepare r2).row_hash) ∧
    (∀ (db : IngestDB) (batch : List NRow) (t : PreparedTxn),
      t ∈ preparedOf batch →
      t.row_hash ∈ db.txns.map (fun s => s.row_hash) →
      ¬ t ∈ newTransactions db batch ∧
        (ingestCore db batch).2.reviews = db.reviews) ∧
    (∀ (db : IngestDB) (batch : List NRow) (r1 r2 : NRow),
      r1 ∈ deduplicate_dataframe batch → r2 ∈ deduplicate_dataframe batch →
      r1.date = r2.date → r1.description = r2.description →
      r1.amount = r2.amount → r1.txnId ≠ r2.txnId →
      ¬ (prepare r1).row_hash ∈ db.txns.map (fun s => s.row_hash) →
      (ingestCore db batch).1.failed = true ∧
        (ingestCore db batch).2.txns = db.txns) := by
  refine ⟨prepare_row_hash_congr, ?_, ?_⟩
  · intro db batch t ht hst
    exact ingest_skips_stored_hash db batch t ht hst

  · intro db batch r1 r2 hr1 hr2 hd hds ha htx hst
    exact ingest_fails_of_collision db batch r1 r2 hr1 hr2 hd hds ha htx hst

/-- A concrete pair of normalized rows sharing date, description and
amount with different issuer txnId values, and the empty store. -/
def cRow1 : NRow :=
  { date := "2024-01-03", description := "COFFEE SHOP #102",
    amount := mkRat (-9) 2, txnId := "A1", account := "1234" }

def cRow2 : NRow :=
  { date := "2024-01-03", description := "COFFEE SHOP #102",
    amount := mkRat (-9) 2, txnId := "B2", account := "1234" }

def emptyDB : IngestDB := { txns := [] }

/-- Witness for C10: a concrete two-row batch agreeing on date,
description and amount with different txnId values makes the insert
fail on the unique row_hash constraint, leaving the store unchanged. -/
theorem C10_witness :
    (ingestCore emptyDB [cRow1, cRow2]).1.failed = true ∧
    (ingestCore emptyDB [cRow1, cRow2]).2.txns = [] :=
  C10_row_hash_coarser_fingerprint.2.2 emptyDB [cRow1, cRow2] cRow1 cRow2
    (by decide) (by decide) rfl rfl rfl (by decide) (by decide)

/-- C1 (corrected, amended part): for a batch of two normalized rows
agreeing on date, trimmed description and amount (and the other
fingerprint fields, with empty references so tier 2 is not gated) but
differing in txnId, deduplicate_dataframe keeps both rows, both carry
one shared possible_dup_group tag, and — contrary to the original claim
— ingestion creates no DuplicateReviewGroup at all: the review table is
untouched, and because both rows share one row_hash the batch insert
fails on the unique row_hash constraint whenever that hash is not
already stored. -/
theorem C1_amended_loose_match (r1 r2 : NRow) (db : IngestDB)
    (hd : r1.date = r2.date) (hds : r1.description = r2.description)
    (ha : r1.amount = r2.amount)
    (href1 : r1.reference = "") (href2 : r2.reference = "")
    (ht : r1.time = r2.time) (hac : r1.account = r2.account)
    (hb : r1.balance = r2.balance) (htx : r1.txnId ≠ r2.txnId) :
    (r1 ∈ deduplicate_dataframe [r1, r2] ∧
      r2 ∈ deduplicate_dataframe [r1, r2]) ∧
    possible_dup_group r1 = possible_dup_group r2 ∧
    (prepare r1).row_hash = (prepare r2).row_hash ∧
    (ingestCore db [r1, r2]).2.reviews = db.reviews ∧
    (¬ (prepare r1).row_hash ∈ db.txns.map (fun s => s.row_hash) →
      (ingestCore db [r1, r2]).1.failed = true ∧
        (ingestCore db [r1, r2]).2.txns = db.txns) := by
  have hh : row_content_hash r1 ≠ row_content_hash r2 :=
    row_content_hash_ne_of_txnId_ne r1 r2 hd hds ha
      (href1.trans href2.symm) ht hac hb htx
  have hkey : key1 r1 ≠ key1 r2 := by
    intro hc
    exact htx (congrArg Prod.fst hc)
  have hpair := dedup_pair r1 r2 href1 href2 hkey hh
  have hr1 : r1 ∈ deduplicate_dataframe [r1, r2] := by
    rcases hpair with h | h <;> rw [h] <;> simp
  have hr2 : r2 ∈ deduplicate_dataframe [r1, r2] := by
    rcases hpair with h | h <;> rw [h] <;> simp
  refine ⟨⟨hr1, hr2⟩, ?_, prepare_row_hash_congr r1 r2 hd hds ha,
    ingestCore_reviews db _, ?_⟩
  · unfold possible_dup_group
    rw [hd, hds, ha]
  · intro hst
    exact ingest_fails_of_collision db [r1, r2] r1 r2 hr1 hr2 hd hds ha htx hst

/-- Counterexample for C1 as stated: on the concrete two-row batch of
the claim (identical date, description, amount; txnId values A1 and B2)
both rows do survive deduplicate_dataframe, but ingestion of the batch
into an empty store creates zero DuplicateReviewGroup rows, not exactly
one group containing both rows. -/
theorem C1_counterexample :
    (cRow1 ∈ deduplicate_dataframe [cRow1, cRow2] ∧
      cRow2 ∈ deduplicate_dataframe [cRow1, cRow2]) ∧
    (ingestCore emptyDB [cRow1, cRow2]).2.reviews = [] := by
  constructor
  · constructor <;> decide
  · decide

/-- Witness for C1 at the concrete rows and the empty store. -/
theorem C1_witness :
    (cRow1 ∈ deduplicate_dataframe [cRow1, cRow2] ∧
      cRow2 ∈ deduplicate_dataframe [cRow1, cRow2]) ∧
    possible_dup_group cRow1 = possible_dup_group cRow2 ∧
    (prepare cRow1).row_hash = (prepare cRow2).row_hash ∧
    (ingestCore emptyDB [cRow1, cRow2]).2.reviews = emptyDB.reviews ∧
    ((ingestCore emptyDB [cRow1, cRow2]).1.failed = true ∧
      (ingestCore emptyDB [cRow1, cRow2]).2.txns = emptyDB.txns) := by
  have h := C1_amended_loose_match cRow1 cRow2 emptyDB rfl rfl rfl rfl rfl
    rfl rfl rfl (by decide)
  exact ⟨h.1, h.2.1, h.2.2.1, h.2.2.2.1, h.2.2.2.2 (by decide)⟩

/-- C2 (corrected, amended part): the three deterministic tiers run in
strict priority order; tier 1 acts only on rows with both TxnId and
Account and tier 2 only on rows with a Reference, the other rows passing
through that tier untouched and in order; and within each tier the kept
occurrence is the FIRST IN THE ORDER THE TIER SEES — the find? clauses
below are relative to the dataframe entering that tier, which tiers 1
and 2 have reordered (matching rows first), not to original ingestion
order. -/
theorem C2_amended_tier_semantics :
    (∀ df : List NRow, df ≠ [] →
      deduplicate_dataframe df = rule3 (rule2 (rule1 df))) ∧
    (∀ df : List NRow,
      (rule1 df).filter (fun r => decide (¬ mask1 r)) =
        df.filter (fun r => decide (¬ mask1 r))) ∧
    (∀ df : List NRow,
      (rule2 df).filter (fun r => decide (¬ mask2 r)) =
        df.filter (fun r => decide (¬ mask2 r))) ∧
    (∀ (df : List NRow) (r : NRow), r ∈ df → mask1 r →
      (r ∈ rule1 df ↔
        (df.filter (fun x => decide (mask1 x))).find?
          (fun x => decide (key1 x = key1 r)) = some r)) ∧
    (∀ (df : List NRow) (r : NRow), r ∈ df → mask2 r →
      (r ∈ rule2 df ↔
        (df.filter (fun x => decide (mask2 x))).find?
          (fun x => decide (key2 x = key2 r)) = some r)) ∧
    (∀ (df : List NRow) (r : NRow),
      r ∈ rule3 df ↔
        df.find? (fun x => decide (row_content_hash x = row_content_hash r)) =
          some r) := by
  refine ⟨?_, rule1_filter_unmasked, rule2_filter_unmasked,
    mem_rule1_iff, mem_rule2_iff, mem_rule3_iff⟩
  intro df h
  unfold deduplicate_dataframe
  rw [if_neg h]

/-- A concrete pair for the C2 counterexample: the first row carries
only a Reference, the second the same Reference together with a TxnId
and Account. -/
def cRowA : NRow :=
  { date := "2024-01-03", description := "COFFEE SHOP #102",
    amount := mkRat (-9) 2, reference := "r77" }

def cRowB : NRow :=
  { date := "2024-01-03", description := "COFFEE SHOP #102",
    amount := mkRat (-9) 2, reference := "r77", txnId := "T9",
    account := "1234" }

/-- Counterexample for C2 as stated: rows A and B share the tier-2 key
(Reference, Date, Amount, Time) and A comes first in ingestion order,
yet deduplicate_dataframe keeps B and drops A — because tier 1 reorders
the frame (rows with TxnId and Account first) before tier 2 picks its
first occurrence, the kept row is not the first in stable ingestion
order. -/
theorem C2_counterexample :
    deduplicate_dataframe [cRowA, cRowB] = [cRowB] ∧
    mask2 cRowA ∧ mask2 cRowB ∧ key2 cRowA = key2 cRowB ∧ cRowA ≠ cRowB := by
  refine ⟨?_, ?_, ?_, ?_, ?_⟩ <;> decide

/-- Witness for C2 at the concrete two-row frame. -/
theorem C2_witness :
    deduplicate_dataframe [cRowA, cRowB] =
      rule3 (rule2 (rule1 [cRowA, cRowB])) ∧
    (rule1 [cRowA, cRowB]).filter (fun r => decide (¬ mask1 r)) =
      [cRowA, cRowB].filter (fun r => decide (¬ mask1 r)) ∧
    (cRowB ∈ rule1 [cRowA, cRowB] ↔
      ([cRowA, cRowB].filter (fun x => decide (mask1 x))).find?
        (fun x => decide (key1 x = key1 cRowB)) = some cRowB) ∧
    (cRowB ∈ rule2 [cRowA, cRowB] ↔
      ([cRowA, cRowB].filter (fun x => decide (mask2 x))).find?
        (fun x => decide (key2 x = key2 cRowB)) = some cRowB) := by
  exact ⟨C2_amended_tier_semantics.1 [cRowA, cRowB] (by decide),
    C2_amended_tier_semantics.2.1 [cRowA, cRowB],
    C2_amended_tier_semantics.2.2.2.1 [cRowA, cRowB] cRowB (by decide) (by decide),
    C2_amended_tier_semantics.2.2.2.2.1 [cRowA, cRowB] cRowB (by decide) (by decide)⟩

/-- A run whose insert set is empty inserts nothing and leaves the
stored transactions unchanged. -/
theorem ingestCore_empty_new (db : IngestDB) (batch : List NRow)
    (h : newTransactions db batch = []) :
    (ingestCore db batch).1.inserted = 0 ∧
      (ingestCore db batch).2.txns = db.txns := by
  have he : (newTransactions db batch).isEmpty = true := by rw [h]; rfl
  constructor
  · simp [ingestCore, he, h]
  · simp [ingestCore, he]

/-- C3 (corrected, amended part): when the first ingestion run succeeds,
rerunning the same batch against the store it produced finds every
prepared row_hash in the existing-hash lookup, filters every row out,
inserts zero rows, and leaves the stored rows unchanged.  (The original
universal claim fails for batches whose surviving rows collide on
row_hash: there the first run itself fails and its store gains nothing,
so the second run finds no hash in the lookup.) -/
theorem C3_amended_idempotence (db : IngestDB) (batch : List NRow)
    (h1 : (ingestCore db batch).1.failed = false) :
    (∀ t ∈ preparedOf batch,
      t.row_hash ∈ get_existing_row_hashes (ingestCore db batch).2
        ((preparedOf batch).map (fun t => t.row_hash))) ∧
    newTransactions (ingestCore db batch).2 batch = [] ∧
    (ingestCore (ingestCore db batch).2 batch).1.inserted = 0 ∧
    (ingestCore (ingestCore db batch).2 batch).2.txns =
      (ingestCore db batch).2.txns := by
  obtain ⟨htx, _hins⟩ := ingestCore_success db batch h1
  have hall : ∀ t ∈ preparedOf batch,
      t.row_hash ∈ (ingestCore db batch).2.txns.map (fun s => s.row_hash) := by
    intro t ht
    rw [htx, List.map_append]
    by_cases hst : t.row_hash ∈ db.txns.map (fun s => s.row_hash)
    · exact List.mem_append_left _ hst
    · have hnew : t ∈ newTransactions db batch := by
        rw [newTransactions_eq_store_filter]
        exact List.mem_filter.mpr ⟨ht, decide_eq_true hst⟩
      exact List.mem_append_right _ (List.mem_map_of_mem _ hnew)
  have hex : ∀ t ∈ preparedOf batch,
      t.row_hash ∈ get_existing_row_hashes (ingestCore db batch).2
        ((preparedOf batch).map (fun t => t.row_hash)) := by
    intro t ht
    unfold get_existing_row_hashes
    exact List.mem_filter.mpr
      ⟨hall t ht, decide_eq_true (List.mem_map_of_mem _ ht)⟩
  have hnew2 : newTransactions (ingestCore db batch).2 batch = [] := by
    rw [newTransactions_eq_store_filter, List.filter_eq_nil_iff]
    intro t ht hc
    exact (of_decide_eq_true hc) (hall t ht)
  exact ⟨hex, hnew2, (ingestCore_empty_new _ batch hnew2).1,
    (ingestCore_empty_new _ batch hnew2).2⟩

/-- Counterexample for C3 as stated: on the concrete batch of two rows
sharing (date, description, amount) with different txnId values, the
first run fails on the row_hash constraint, so the second run finds NO
prepared row_hash in the existing-hash lookup (the all-check is false)
and its insert set still holds both rows rather than zero. -/
theorem C3_counterexample :
    ((preparedOf [cRow1, cRow2]).all
      (fun t => decide (t.row_hash ∈
        get_existing_row_hashes (ingestCore emptyDB [cRow1, cRow2]).2
          ((preparedOf [cRow1, cRow2]).map (fun t => t.row_hash))))) = false ∧
    (newTransactions (ingestCore emptyDB [cRow1, cRow2]).2
      [cRow1, cRow2]).length = 2 := by
  constructor <;> decide

/-- A concrete single-row batch whose ingestion succeeds. -/
def cRow3 : NRow :=
  { date := "2024-02-01", description := "RENT", amount := mkRat 1200 1 }

/-- Witness for C3: after a successful run of the singleton batch, the
second run filters everything out and inserts nothing. -/
theorem C3_witness :
    newTransactions (ingestCore emptyDB [cRow3]).2 [cRow3] = [] ∧
    (ingestCore (ingestCore emptyDB [cRow3]).2 [cRow3]).1.inserted = 0 ∧
    (ingestCore (ingestCore emptyDB [cRow3]).2 [cRow3]).2.txns =
      (ingestCore emptyDB [cRow3]).2.txns := by
  have h := C3_amended_idempotence emptyDB [cRow3] (by decide)
  exact ⟨h.2.1, h.2.2.1, h.2.2.2⟩

/-- C5 (confirmed): review is single-shot per group.  After one
successful review of a group, any later review call on the same group
fails with the no-pending-review report and changes nothing, and every
review row of the group keeps the first call action as its
action_taken. -/
theorem C5_review_single_shot (st st1 : MState) (g a : String) (k : Option ℕ)
    (np : String) (now : ℕ)
    (h : review_duplicate st g a k np true now = (.ok a, st1)) :
    (∀ (a2 : String) (k2 : Option ℕ) (np2 : String) (audit2 : Bool) (now2 : ℕ),
      review_duplicate st1 g a2 k2 np2 audit2 now2 = (.errNoPending, st1)) ∧
    (∀ r ∈ st1.reviews, r.group_id = g →
      r.reviewed = true ∧ r.action_taken = some a) := by
  obtain ⟨_, txns2, hst1, _⟩ := review_duplicate_ok_full st g a k np now a st1 h
  constructor
  · intro a2 k2 np2 audit2 now2
    have hp : (pendingRows st1 g).isEmpty = true := by
      rw [hst1, pendingRows_marked]
      rfl
    exact review_duplicate_noPending st1 g a2 k2 np2 audit2 now2 hp
  · intro r hr hg
    rw [hst1] at hr
    exact mem_markReviewed_of_group now g a (decisionNote a np) st.reviews r hr hg

/-- A concrete staged group of two transactions, and the state after a
first successful keep_both review of it. -/
def cTxn1 : MTxn := { id := 1, date := 0, description := "x", amount := mkRat 5 1 }

def cTxn2 : MTxn := { id := 2, date := 0, description := "x", amount := mkRat 5 1 }

def cRev1 : ReviewRow :=
  { group_id := "DUP_0001", transaction_id := 1,
    similarity_score := mkRat 85 100, reviewed := false }

def cRev2 : ReviewRow :=
  { group_id := "DUP_0001", transaction_id := 2,
    similarity_score := mkRat 85 100, reviewed := false }

def cSt0 : MState := { txns := [cTxn1, cTxn2], reviews := [cRev1, cRev2] }

def cSt1 : MState :=
  (review_duplicate cSt0 "DUP_0001" "keep_both" none "" true 7).2

/-- The first review row of the group after the keep_both review. -/
def cRev1Marked : ReviewRow :=
  { group_id := "DUP_0001", transaction_id := 1,
    similarity_score := mkRat 85 100, reviewed := true,
    action_taken := some "keep_both", reviewed_by := some "mcp_user",
    reviewed_at := some 7, notes := some "Action: keep_both" }

/-- Witness for C5 at the concrete group. -/
theorem C5_witness :
    review_duplicate cSt1 "DUP_0001" "keep_both" none "" true 8 =
      (.errNoPending, cSt1) ∧
    (cRev1Marked.reviewed = true ∧ cRev1Marked.action_taken = some "keep_both") := by
  have h := C5_review_single_shot cSt0 cSt1 "DUP_0001" "keep_both" none "" 7
    (by decide)
  exact ⟨h.1 "keep_both" none "" true 8, h.2 cRev1Marked (by decide) rfl⟩

/-- C7 (corrected, amended part): every statement of review_duplicate
commits independently.  When the audit insert succeeds the reviewed
marking and the audit record are both persisted; when the audit insert
fails the call returns an error, but the reviewed marking (and any soft
deletes) remain committed while the audit record is absent — so a run
with the state mutation persisted and no audit record is possible, not
impossible as claimed. -/
theorem C7_amended_audit (st st1 : MState) (g a : String) (k : Option ℕ)
    (np : String) (now : ℕ)
    (h : review_duplicate st g a k np true now = (.ok a, st1)) :
    st1.logs = st.logs ++ [auditRow g a (pendingRows st g).length] ∧
    (review_duplicate st g a k np false now).1 = .errAudit ∧
    (review_duplicate st g a k np false now).2.reviews = st1.reviews ∧
    (review_duplicate st g a k np false now).2.txns = st1.txns ∧
    (review_duplicate st g a k np false now).2.logs = st.logs := by
  obtain ⟨_, txns2, hst1, hfalse⟩ := review_duplicate_ok_full st g a k np now a st1 h
  refine ⟨by rw [hst1], ?_, ?_, ?_, ?_⟩
  · rw [hfalse]
  · rw [hfalse, hst1]
  · rw [hfalse, hst1]
  · rw [hfalse]

/-- Counterexample for C7 as stated: on the concrete staged group, a
keep_both review whose audit insert fails returns an error, persists NO
audit record (the log stays empty), and yet the group review state
mutation has persisted (every review row is marked reviewed) — the run
the claim calls impossible. -/
theorem C7_counterexample :
    (review_duplicate cSt0 "DUP_0001" "keep_both" none "" false 7).1 =
      .errAudit ∧
    (review_duplicate cSt0 "DUP_0001" "keep_both" none "" false 7).2.logs = [] ∧
    ((review_duplicate cSt0 "DUP_0001" "keep_both" none "" false 7).2.reviews.all
      (fun r => r.reviewed)) = true := by
  refine ⟨?_, ?_, ?_⟩ <;> decide

/-- Witness for C7 at the concrete group. -/
theorem C7_witness :
    cSt1.logs = cSt0.logs ++
      [auditRow "DUP_0001" "keep_both" (pendingRows cSt0 "DUP_0001").length] ∧
    (review_duplicate cSt0 "DUP_0001" "keep_both" none "" false 7).1 =
      .errAudit ∧
    (review_duplicate cSt0 "DUP_0001" "keep_both" none "" false 7).2.reviews =
      cSt1.reviews ∧
    (review_duplicate cSt0 "DUP_0001" "keep_both" none "" false 7).2.logs =
      cSt0.logs :=
  have h := C7_amended_audit cSt0 cSt1 "DUP_0001" "keep_both" none "" 7
    (by decide)
  ⟨h.1, h.2.1, h.2.2.1, h.2.2.2.2⟩

/-- The delete_duplicate branch of review_duplicate under valid inputs:
the resulting transactions are the soft-delete loop output and the
review rows of the group are marked, whether or not the audit insert
succeeds. -/
theorem review_duplicate_delete_shape (st : MState) (g np : String)
    (audit : Bool) (now k : ℕ)
    (hp : ¬ (pendingRows st g).isEmpty = true)
    (hlen : ¬ (pendingRows st g).length < 2)
    (hk0 : ¬ k = 0)
    (hkmem : k ∈ (pendingRows st g).map (fun r => r.transaction_id)) :
    (review_duplicate st g "delete_duplicate" (some k) np audit now).2.txns =
      softDeleteOthers now k (pendingRows st g) st.txns ∧
    (review_duplicate st g "delete_duplicate" (some k) np audit now).2.reviews =
      markReviewed now g "delete_duplicate"
        (decisionNote "delete_duplicate" np) st.reviews := by
  unfold review_duplicate
  rw [if_neg hp, if_neg hlen, if_neg (show ¬ ¬ "delete_duplicate" ∈ validActions
    by decide), if_pos rfl]
  dsimp only
  rw [if_neg hk0, if_neg (not_not_intro hkmem)]
  unfold reviewFinish
  by_cases haud : audit
  · rw [if_pos haud]
    exact ⟨rfl, rfl⟩
  · rw [if_neg haud]
    exact ⟨rfl, rfl⟩

/-- The delete_duplicate branch with a kept id outside the group is
rejected before any mutation. -/
theorem review_duplicate_keep_not_in_group (st : MState) (g np : String)
    (audit : Bool) (now k : ℕ)
    (hp : ¬ (pendingRows st g).isEmpty = true)
    (hlen : ¬ (pendingRows st g).length < 2)
    (hk0 : ¬ k = 0)
    (hkmem : ¬ k ∈ (pendingRows st g).map (fun r => r.transaction_id)) :
    review_duplicate st g "delete_duplicate" (some k) np audit now =
      (.errKeepNotInGroup, st) := by
  unfold review_duplicate
  rw [if_neg hp, if_neg hlen, if_neg (show ¬ ¬ "delete_duplicate" ∈ validActions
    by decide), if_pos rfl]
  dsimp only
  rw [if_neg hk0, if_pos hkmem]

/-- C6 (confirmed): the delete_duplicate action on a staged group
soft-deletes every member except the kept transaction (deletion marker
set and reason populated), leaves the kept transaction unmodified, and
marks the group reviewed with action_taken delete_duplicate; a kept id
that is not a member is rejected with no state change at all. -/
theorem C6_delete_duplicate (st : MState) (g np : String) (audit : Bool)
    (now k : ℕ)
    (hlen : 2 ≤ (pendingRows st g).length)
    (hnd : ((pendingRows st g).map (fun r => r.transaction_id)).Nodup)
    (hk0 : k ≠ 0) :
    (k ∈ (pendingRows st g).map (fun r => r.transaction_id) →
      (∀ t ∈ (review_duplicate st g "delete_duplicate" (some k)
          np audit now).2.txns,
        t.id ≠ k → t.id ∈ (pendingRows st g).map (fun r => r.transaction_id) →
        t.deleted_at = some now ∧ t.deletion_reason = some "duplicate_review") ∧
      (∀ t ∈ (review_duplicate st g "delete_duplicate" (some k)
          np audit now).2.txns,
        t.id = k → t ∈ st.txns) ∧
      (∀ r ∈ (review_duplicate st g "delete_duplicate" (some k)
          np audit now).2.reviews,
        r.group_id = g →
          r.reviewed = true ∧ r.action_taken = some "delete_duplicate")) ∧
    (¬ k ∈ (pendingRows st g).map (fun r => r.transaction_id) →
      review_duplicate st g "delete_duplicate" (some k) np audit now =
        (.errKeepNotInGroup, st)) := by
  have hp : ¬ (pendingRows st g).isEmpty = true := by
    intro hc
    rw [List.isEmpty_iff.mp hc] at hlen
    simp at hlen
  have hlt : ¬ (pendingRows st g).length < 2 := not_lt.mpr hlen
  constructor
  · intro hkmem
    obtain ⟨htxns, hrevs⟩ :=
      review_duplicate_delete_shape st g np audit now k hp hlt hk0 hkmem
    refine ⟨?_, ?_, ?_⟩
    · intro t htmem hneq hin
      rw [htxns, softDeleteOthers_eq_map now k (pendingRows st g) st.txns hnd]
        at htmem
      rcases List.mem_map.mp htmem with ⟨t0, _ht0, heq⟩
      by_cases hcond : (pendingRows st g).any
          (fun r => decide (r.transaction_id = t0.id ∧
            r.transaction_id ≠ k)) = true
      · rw [if_pos hcond] at heq
        rw [← heq]
        exact ⟨rfl, rfl⟩
      · rw [if_neg hcond] at heq
        rw [← heq] at hneq hin
        rcases List.mem_map.mp hin with ⟨r0, hr0, hr0id⟩
        exact absurd (List.any_eq_true.mpr
          ⟨r0, hr0, decide_eq_true ⟨hr0id, by rw [hr0id]; exact hneq⟩⟩) hcond
    · intro t htmem hid
      rw [htxns, softDeleteOthers_eq_map now k (pendingRows st g) st.txns hnd]
        at htmem
      rcases List.mem_map.mp htmem with ⟨t0, ht0, heq⟩
      by_cases hcond : (pendingRows st g).any
          (fun r => decide (r.transaction_id = t0.id ∧
            r.transaction_id ≠ k)) = true
      · rcases List.any_eq_true.mp hcond with ⟨r0, _hr0, hdec⟩
        obtain ⟨he1, he2⟩ := of_decide_eq_true hdec
        rw [if_pos hcond] at heq
        have hid0 : t0.id = k := by
          rw [← heq] at hid
          exact hid
        exact absurd (he1.trans hid0) he2
      · rw [if_neg hcond] at heq
        rw [← heq]
        exact ht0
    · intro r hr hg
      rw [hrevs] at hr
      exact mem_markReviewed_of_group now g "delete_duplicate"
        (decisionNote "delete_duplicate" np) st.reviews r hr hg
  · intro hkmem
    exact review_duplicate_keep_not_in_group st g np audit now k hp hlt hk0 hkmem

/-- The second transaction after being soft-deleted by the concrete
delete_duplicate review keeping transaction 1. -/
def cTxn2Deleted : MTxn := softDel 7 1 cTxn2

/-- The first review row of the group after the delete_duplicate review. -/
def cRev1Deleted : ReviewRow :=
  { group_id := "DUP_0001", transaction_id := 1,
    similarity_score := mkRat 85 100, reviewed := true,
    action_taken := some "delete_duplicate", reviewed_by := some "mcp_user",
    reviewed_at := some 7, notes := some "Action: delete_duplicate" }

/-- Witness for C6 at the concrete group: member 2 is soft-deleted with
the marker and reason, the kept transaction 1 is untouched, the group is
marked reviewed; keeping the absent id 99 is rejected with no change. -/
theorem C6_witness :
    (cTxn2Deleted.deleted_at = some 7 ∧
      cTxn2Deleted.deletion_reason = some "duplicate_review") ∧
    cTxn1 ∈ cSt0.txns ∧
    (cRev1Deleted.reviewed = true ∧
      cRev1Deleted.action_taken = some "delete_duplicate") ∧
    review_duplicate cSt0 "DUP_0001" "delete_duplicate" (some 99) "" true 7 =
      (.errKeepNotInGroup, cSt0) := by
  have h := C6_delete_duplicate cSt0 "DUP_0001" "" true 7 1
    (by decide) (by decide) (by decide)
  have h1 := h.1 (by decide)
  exact ⟨h1.1 cTxn2Deleted (by decide) (by decide) (by decide),
    h1.2.1 cTxn1 (by decide) rfl,
    h1.2.2 cRev1Deleted (by decide) rfl,
    (C6_delete_duplicate cSt0 "DUP_0001" "" true 7 99
      (by decide) (by decide) (by decide)).2 (by decide)⟩

/-- Members of the visited ordered pairs come from the scanned list. -/
theorem mem_orderedPairs (l : List MTxn) :
    ∀ p ∈ orderedPairs l, p.1 ∈ l ∧ p.2 ∈ l := by
  induction l with
  | nil => intro p hp; simp [orderedPairs] at hp
  | cons x xs ih =>
    intro p hp
    unfold orderedPairs at hp
    rcases List.mem_append.mp hp with hp | hp
    · rcases List.mem_map.mp hp with ⟨y, hy, heq⟩
      rw [← heq]
      exact ⟨List.mem_cons_self x xs, List.mem_cons_of_mem x hy⟩
    · have := ih p hp
      exact ⟨List.mem_cons_of_mem x this.1, List.mem_cons_of_mem x this.2⟩

/-- Rows inserted by the staging helper are unreviewed and reference the
two pair members. -/
theorem mem_stageRows (gid : String) (t1 t2 : MTxn) (score : ℚ)
    (reason : String) (r : ReviewRow)
    (hr : r ∈ stageRows gid t1 t2 score reason) :
    r.reviewed = false ∧ (r.transaction_id = t1.id ∨ r.transaction_id = t2.id) := by
  rcases List.mem_pair.mp hr with rfl | rfl
  · exact ⟨rfl, Or.inl rfl⟩
  · exact ⟨rfl, Or.inr rfl⟩

/-- Invariants of the staging scan: groups reference scanned pair
members, auto-staged rows are unreviewed and reference scanned members. -/
theorem scanPairs_invariant (tol : ℚ) (autoStage : Bool) (txs : List MTxn) :
    ∀ (pairs : List (MTxn × MTxn)) (groups : List GroupRec)
      (processed : List (ℕ × ℕ)) (autoRows : List ReviewRow),
    (∀ p ∈ pairs, p.1 ∈ txs ∧ p.2 ∈ txs) →
    (∀ grp ∈ groups, grp.t1 ∈ txs ∧ grp.t2 ∈ txs) →
    (∀ r ∈ autoRows, r.reviewed = false ∧
      r.transaction_id ∈ txs.map (fun t => t.id)) →
    (∀ grp ∈ (scanPairs tol autoStage pairs groups processed autoRows).1,
      grp.t1 ∈ txs ∧ grp.t2 ∈ txs) ∧
    (∀ r ∈ (scanPairs tol autoStage pairs groups processed autoRows).2,
      r.reviewed = false ∧ r.transaction_id ∈ txs.map (fun t => t.id)) := by
  intro pairs
  induction pairs with
  | nil =>
    intro groups processed autoRows _ hg ha
    exact ⟨hg, ha⟩
  | cons p rest ih =>
    intro groups processed autoRows hp hg ha
    obtain ⟨t1, t2⟩ := p
    have hp1 : t1 ∈ txs := (hp (t1, t2) (List.mem_cons_self _ _)).1
    have hp2 : t2 ∈ txs := (hp (t1, t2) (List.mem_cons_self _ _)).2
    have hrest : ∀ q ∈ rest, q.1 ∈ txs ∧ q.2 ∈ txs :=
      fun q hq => hp q (List.mem_cons_of_mem _ hq)
    unfold scanPairs
    by_cases hproc : pairKey t1.id t2.id ∈ processed
    · rw [if_pos hproc]
      exact ih groups processed autoRows hrest hg ha
    · rw [if_neg hproc]
      cases hcrit : pairCriterion tol t1 t2 with
      | none =>
        exact ih groups processed autoRows hrest hg ha
      | some sr =>
        obtain ⟨score, reason⟩ := sr
        apply ih
        · exact hrest
        · intro grp hgrp
          rcases List.mem_append.mp hgrp with hgrp | hgrp
          · exact hg grp hgrp
          · rw [List.mem_singleton.mp hgrp]
            exact ⟨hp1, hp2⟩
        · intro r hr
          by_cases hauto : autoStage ∧ score ≥ mkRat 90 100
          · rw [if_pos hauto] at hr
            rcases List.mem_append.mp hr with hr | hr
            · exact ha r hr
            · obtain ⟨hrev, hid⟩ := mem_stageRows _ _ _ _ _ r hr
              refine ⟨hrev, ?_⟩
              rcases hid with hid | hid
              · rw [hid]; exact List.mem_map_of_mem _ hp1
              · rw [hid]; exact List.mem_map_of_mem _ hp2
          · rw [if_neg hauto] at hr
            exact ha r hr

/-- C8 (corrected, amended part): a staging run first deletes every
unreviewed review row, so open groups never accumulate across staging
runs (the reviewed rows are preserved exactly), and every open review
row present after the run was created by this run from the scanned
transactions.  The one-open-group-per-row claim itself fails: within a
single run a transaction matching several others is inserted into one
open group per matching pair. -/
theorem C8_amended_staging (st : MState) (txs : List MTxn) (tol : ℚ)
    (auto : Bool) :
    ((stage_duplicates_for_review st txs tol auto).2.reviews.filter
        (fun r => r.reviewed) =
      st.reviews.filter (fun r => r.reviewed)) ∧
    (∀ r ∈ (stage_duplicates_for_review st txs tol auto).2.reviews,
      r.reviewed = false → r.transaction_id ∈ txs.map (fun t => t.id)) := by
  have hkept : (st.reviews.filter (fun r => r.reviewed)).filter
      (fun r => r.reviewed) = st.reviews.filter (fun r => r.reviewed) :=
    List.filter_eq_self.mpr (fun a ha => (List.mem_filter.mp ha).2)
  have hscan := scanPairs_invariant tol auto txs (orderedPairs txs) [] [] []
    (mem_orderedPairs txs) (by intro grp h; simp at h) (by intro r h; simp at h)
  unfold stage_duplicates_for_review
  by_cases hfew : txs.length < 2
  · rw [if_pos hfew]
    refine ⟨hkept, ?_⟩
    intro r hr hrev
    have := (List.mem_filter.mp hr).2
    rw [hrev] at this
    simp at this
  rw [if_neg hfew]
  by_cases hnone : (scanPairs tol auto (orderedPairs txs) [] [] []).1.isEmpty
  · rw [if_pos hnone]
    refine ⟨hkept, ?_⟩
    intro r hr hrev
    have := (List.mem_filter.mp hr).2
    rw [hrev] at this
    simp at this
  rw [if_neg hnone]
  constructor
  · rw [List.filter_append, List.filter_append, hkept]
    have h2 : (scanPairs tol auto (orderedPairs txs) [] [] []).2.filter
        (fun r => r.reviewed) = [] := by
      rw [List.filter_eq_nil_iff]
      intro r hr
      rw [(hscan.2 r hr).1]
      simp
    have h3 : (((scanPairs tol auto (orderedPairs txs) [] [] []).1.filter
        (fun grp => decide (¬ (auto ∧ grp.score ≥ mkRat 90 100)))).flatMap
          (fun grp => stageRows grp.gid grp.t1 grp.t2 grp.score
            grp.reason)).filter (fun r => r.reviewed) = [] := by
      rw [List.filter_eq_nil_iff]
      intro r hr
      rcases List.mem_flatMap.mp hr with ⟨grp, _hgrp, hrmem⟩
      rw [(mem_stageRows _ _ _ _ _ r hrmem).1]
      simp
    rw [h2, h3, List.append_nil, List.append_nil]
  · intro r hr _hrev
    rcases List.mem_append.mp hr with hr | hr
    · rcases List.mem_append.mp hr with hr | hr
      · have := (List.mem_filter.mp hr).2
        rw [_hrev] at this
        simp at this
      · exact (hscan.2 r hr).2
    · rcases List.mem_flatMap.mp hr with ⟨grp, hgrp, hrmem⟩
      have hgmem := hscan.1 grp (List.mem_filter.mp hgrp).1
      rcases (mem_stageRows _ _ _ _ _ r hrmem).2 with hid | hid
      · rw [hid]; exact List.mem_map_of_mem _ hgmem.1
      · rw [hid]; exact List.mem_map_of_mem _ hgmem.2

/-- The three concrete pairwise-matching transactions of the staging
counterexample. -/
def cT1 : MTxn := { id := 1, date := 0, description := "x", amount := mkRat 5 1 }

def cT2 : MTxn := { id := 2, date := 0, description := "x", amount := mkRat 5 1 }

def cT3 : MTxn := { id := 3, date := 0, description := "x", amount := mkRat 5 1 }

/-- One staging run over the three transactions. -/
def cStage : StageResult × MState :=
  stage_duplicates_for_review { txns := [cT1, cT2, cT3] } [cT1, cT2, cT3]
    (mkRat 1 100) true

/-- Counterexample for C8 as stated: after the single staging run over
three mutually matching transactions, transaction 1 is a member of the
two distinct unreviewed groups DUP_0001 and DUP_0002. -/
theorem C8_counterexample :
    ({ group_id := "DUP_0001", transaction_id := 1,
       similarity_score := mkRat 85 100, reviewed := false,
       notes := some "Same Description and Amount, 0 days apart" } : ReviewRow)
        ∈ cStage.2.reviews ∧
    ({ group_id := "DUP_0002", transaction_id := 1,
       similarity_score := mkRat 85 100, reviewed := false,
       notes := some "Same Description and Amount, 0 days apart" } : ReviewRow)
        ∈ cStage.2.reviews ∧
    ("DUP_0001" : String) ≠ "DUP_0002" := by
  refine ⟨?_, ?_, ?_⟩ <;> decide

/-- Witness for C8 at the concrete staging run. -/
theorem C8_witness :
    cStage.2.reviews.filter (fun r => r.reviewed) = [] ∧
    (1 : ℕ) ∈ [cT1, cT2, cT3].map (fun t => t.id) := by
  have h := C8_amended_staging { txns := [cT1, cT2, cT3] } [cT1, cT2, cT3]
    (mkRat 1 100) true
  constructor
  · rw [show (cStage.2.reviews.filter (fun r => r.reviewed)) =
      (stage_duplicates_for_review { txns := [cT1, cT2, cT3] }
        [cT1, cT2, cT3] (mkRat 1 100) true).2.reviews.filter
          (fun r => r.reviewed) from rfl, h.1]
    rfl
  · exact h.2
      ⟨"DUP_0001", 1, mkRat 85 100, false, none, none, none,
        some "Same Description and Amount, 0 days apart"⟩
      (by decide) rfl

end Bookkeeping
